import Mathlib

/-!
# png2icons — verification of the core conversion pipeline

A shallow embedding of the png2icons sources (`src/png2icons.ts`,
`src/lib/icns-encoder.js`, `src/lib/resize4.js`) in Lean 4, together with
theorems settling the specification claims about them.

Modelling conventions:
* JS byte buffers (`Buffer`, `Uint8Array`) are `List Nat` whose entries are
  byte values; indices and sizes are `Nat`/`Int` as appropriate.
* JS `number` arithmetic on coordinates and scale factors is modelled with
  exact rationals (`ℚ`); `Math.floor` is `Int.floor`, `Math.round` is
  `⌊q + 1/2⌋` (JS rounds .5 towards +∞).
* External collaborators (the UPNG PNG bitstream codec and the resize3
  resampling kernels, which are outside the core sources) are abstract
  function parameters collected in a record; exceptions they may raise are
  modelled with `Option`.
-/

namespace PackBits

/-! ## src/lib/icns-encoder.js

`encode` walks the input with an index `i`; here it is modelled structurally
on the remaining suffix of the input.  `decode` likewise.
-/

/-- Number of leading entries of `s` equal to `b` (the run the `repeat`
branch of `encode` measures with its inner `while` loop, before the
130-byte cap is applied). -/
def leadRun (b : Nat) : List Nat → Nat
  | [] => 0
  | x :: xs => if x = b then leadRun b xs + 1 else 0

/-- The literal-run scan loop of `encode` (the `else` branch): `rest` holds
the bytes from the position examined after `++j` onwards, `prev`, `rl` and
`len` mirror the `prev`, `repeatLength` and `length` variables.  Returns the
final value of `length`, including the `j -= 2; length -= 2` adjustment
performed after a `break` on three detected consecutive equal bytes. -/
def litLen : List Nat → Nat → Nat → Nat → Nat
  | [], _, _, len => len
  | x :: xs, prev, rl, len =>
    if len < 128 then
      if x = prev then
        if 2 < rl + 1 then len - 2
        else litLen xs prev (rl + 1) (len + 1)
      else litLen xs x 1 (len + 1)
    else len

theorem litLen_ge (rest : List Nat) (prev rl len : Nat) :
    len - 2 ≤ litLen rest prev rl len := by
  induction rest generalizing prev rl len with
  | nil => simp [litLen]
  | cons x xs ih =>
    simp only [litLen]
    split
    · split
      · split
        · omega
        · exact le_trans (by omega) (ih prev (rl + 1) (len + 1))
      · exact le_trans (by omega) (ih x 1 (len + 1))
    · omega

theorem litLen_le_128 (rest : List Nat) (prev rl len : Nat) (h : len ≤ 128) :
    litLen rest prev rl len ≤ 128 := by
  induction rest generalizing prev rl len with
  | nil => simpa [litLen]
  | cons x xs ih =>
    simp only [litLen]
    split
    · split
      · split
        · omega
        · exact ih prev (rl + 1) (len + 1) (by omega)
      · exact ih x 1 (len + 1) (by omega)
    · omega

theorem litLen_le_add (rest : List Nat) (prev rl len : Nat) :
    litLen rest prev rl len ≤ len + rest.length := by
  induction rest generalizing prev rl len with
  | nil => simp [litLen]
  | cons x xs ih =>
    simp only [litLen, List.length_cons]
    split
    · split
      · split
        · omega
        · exact le_trans (ih prev (rl + 1) (len + 1)) (by omega)
      · exact le_trans (ih x 1 (len + 1)) (by omega)
    · omega

/-- PackBits `encode` from `src/lib/icns-encoder.js`, on the remaining
suffix of the input buffer.  The three-way branch mirrors the source: a
final literal record with raw-count header when fewer than 3 bytes remain,
a repeat record `[length + 128 - 3, byte]` when the next 3 bytes are equal,
and a literal record `[length - 1] ++ bytes` otherwise. -/
def encode (s : List Nat) : List Nat :=
  match s with
  | [] => []
  | [a] => 1 :: [a]
  | [a, b] => 2 :: [a, b]
  | x :: y :: z :: rest =>
    if y = x ∧ z = x then
      ((min 130 (leadRun x (x :: y :: z :: rest))) + 125) ::
        x :: encode ((x :: y :: z :: rest).drop (min 130 (leadRun x (x :: y :: z :: rest))))
    else
      (litLen ((x :: y :: z :: rest).drop 3) z 1 3 - 1) ::
        ((x :: y :: z :: rest).take (litLen ((x :: y :: z :: rest).drop 3) z 1 3) ++
          encode ((x :: y :: z :: rest).drop (litLen ((x :: y :: z :: rest).drop 3) z 1 3)))
termination_by s.length
decreasing_by
  · simp only [List.length_drop]
    have h1 : 1 ≤ leadRun x (x :: y :: z :: rest) := by simp [leadRun]
    simp only [List.length_cons]
    omega
  · simp only [List.length_drop]
    have h1 := litLen_ge ((x :: y :: z :: rest).drop 3) z 1 3
    simp only [List.length_cons]
    omega

/-- PackBits `decode` from `src/lib/icns-encoder.js`: a header byte `≥ 128`
yields `header - 128 + 3` copies of the following byte, a header byte
`< 128` copies the next `header + 1` bytes verbatim (`buffer.slice` clamps
at the end of the buffer, exactly as `List.take` does). -/
def decode (s : List Nat) : List Nat :=
  match s with
  | [] => []
  | h :: t =>
    if 128 ≤ h then
      List.replicate (h - 128 + 3) (t.headD 0) ++ decode (t.drop 1)
    else
      t.take (h + 1) ++ decode (t.drop (h + 1))
termination_by s.length
decreasing_by
  · simp only [List.length_drop, List.length_cons]; omega
  · simp only [List.length_drop, List.length_cons]; omega

/-- Unfolding lemma for `decode` on a nonempty buffer. -/
theorem decode_cons (h : Nat) (t : List Nat) :
    decode (h :: t) =
      if 128 ≤ h then
        List.replicate (h - 128 + 3) (t.headD 0) ++ decode (t.drop 1)
      else t.take (h + 1) ++ decode (t.drop (h + 1)) := by
  rw [decode]

theorem encode_one (a : Nat) : encode [a] = [1, a] := by rw [encode]

theorem encode_two (a b : Nat) : encode [a, b] = [2, a, b] := by rw [encode]

theorem leadRun_le_length (b : Nat) (s : List Nat) : leadRun b s ≤ s.length := by
  induction s with
  | nil => simp [leadRun]
  | cons x xs ih =>
    simp only [leadRun, List.length_cons]
    split
    · omega
    · omega

theorem take_of_le_leadRun (b : Nat) (s : List Nat) (L : Nat)
    (h : L ≤ leadRun b s) : s.take L = List.replicate L b := by
  induction s generalizing L with
  | nil => simp [leadRun] at h; simp [h]
  | cons x xs ih =>
    cases L with
    | zero => simp
    | succ n =>
      simp only [leadRun] at h
      by_cases hx : x = b
      · subst hx
        rw [if_pos rfl] at h
        simp only [List.take_succ_cons, List.replicate_succ, List.cons.injEq, true_and]
        exact ih n (by omega)
      · rw [if_neg hx] at h
        omega

/-- Decode is a left inverse of encode (proved for arbitrary entry values;
restriction to bytes is a special case). -/
theorem decode_encode (s : List Nat) : decode (encode s) = s := by
  induction s using encode.induct with
  | case1 => simp [encode, decode]
  | case2 a => simp [encode, decode]
  | case3 a b => simp [encode, decode]
  | case4 x y z rest hrep ih =>
    rw [encode, if_pos hrep]
    set s := x :: y :: z :: rest with hs
    set L := min 130 (leadRun x s) with hL
    have hrun : 3 ≤ leadRun x s := by
      simp [hs, leadRun, hrep.1, hrep.2]
    have hL3 : 3 ≤ L := by omega
    have hLrun : L ≤ leadRun x s := by omega
    have hLlen : L ≤ s.length := le_trans hLrun (leadRun_le_length x s)
    rw [decode_cons]
    simp only [if_pos (show 128 ≤ L + 125 by omega), List.headD_cons,
      List.drop_succ_cons, List.drop_zero]
    rw [ih]
    have hrepl : L + 125 - 128 + 3 = L := by omega
    rw [hrepl, ← take_of_le_leadRun x s L hLrun, List.take_append_drop]
  | case5 x y z rest hrep ih =>
    rw [encode, if_neg hrep]
    set s := x :: y :: z :: rest with hs
    set L := litLen (s.drop 3) z 1 3 with hL
    have hge : 1 ≤ L := by have := litLen_ge (s.drop 3) z 1 3; omega
    have hle : L ≤ 128 := litLen_le_128 (s.drop 3) z 1 3 (by omega)
    have hlen : L ≤ s.length := by
      have := litLen_le_add (s.drop 3) z 1 3
      simp only [List.length_drop] at this
      have h3 : 3 ≤ s.length := by simp [hs]
      omega
    rw [decode_cons]
    simp only [if_neg (show ¬ 128 ≤ L - 1 by omega)]
    have hL1 : L - 1 + 1 = L := by omega
    have htk : (s.take L).length = L := by simp [hlen]
    rw [hL1, List.take_left' htk, List.drop_left' htk, ih, List.take_append_drop]

end PackBits

/-- **C1** — PackBits round trip: for every byte sequence `b`,
`decode (encode b) = b`. -/
theorem packbits_decode_encode (b : List Nat) (hb : ∀ x ∈ b, x < 256) :
    PackBits.decode (PackBits.encode b) = b :=
  PackBits.decode_encode b

/-- Witness for C1 at a concrete mixed input (a run, short literals). -/
theorem packbits_decode_encode_witness :
    (∀ x ∈ [9, 9, 9, 9, 1, 2, 3, 3, 3, 5], x < 256) ∧
      PackBits.decode (PackBits.encode [9, 9, 9, 9, 1, 2, 3, 3, 3, 5]) =
        [9, 9, 9, 9, 1, 2, 3, 3, 3, 5] :=
  ⟨by decide, packbits_decode_encode [9, 9, 9, 9, 1, 2, 3, 3, 3, 5] (by decide)⟩

/-- **C4** — tail rule: whenever encoding reaches a position `i` with one or
two bytes remaining, the rest of the encoded output is exactly one final
literal record whose header byte is the raw remaining count followed by the
remaining bytes verbatim. -/
theorem packbits_encode_tail (b : List Nat) (i : Nat)
    (h1 : i < b.length) (h2 : b.length ≤ i + 2) :
    PackBits.encode (b.drop i) = (b.length - i) :: b.drop i := by
  have hlen : (b.drop i).length = b.length - i := by simp
  match hd : b.drop i with
  | [] =>
    rw [hd] at hlen
    simp only [List.length_nil] at hlen
    omega
  | [a] =>
    rw [hd] at hlen
    simp only [List.length_cons, List.length_nil] at hlen
    rw [PackBits.encode_one, ← hlen]
  | [a, c] =>
    rw [hd] at hlen
    simp only [List.length_cons, List.length_nil] at hlen
    rw [PackBits.encode_two, ← hlen]
  | a :: c :: d :: t =>
    rw [hd] at hlen
    simp only [List.length_cons] at hlen
    omega

/-- Witness for C4: a 5-byte buffer whose encoding reaches position 3 with
two bytes remaining. -/
theorem packbits_encode_tail_witness :
    3 < ([1, 2, 3, 4, 5] : List Nat).length ∧
      ([1, 2, 3, 4, 5] : List Nat).length ≤ 3 + 2 ∧
      PackBits.encode (([1, 2, 3, 4, 5] : List Nat).drop 3) =
        (([1, 2, 3, 4, 5] : List Nat).length - 3) :: ([1, 2, 3, 4, 5] : List Nat).drop 3 :=
  ⟨by decide, by decide, packbits_encode_tail [1, 2, 3, 4, 5] 3 (by decide) (by decide)⟩

namespace Png2icons

/-! ## src/png2icons.ts — common geometry

JS `number` arithmetic on rectangle dimensions is modelled with exact
rationals; `Math.floor` is `Int.floor`.
-/

/-- Simple rectangle (`IRect` in the source); fields are integers. -/
structure IRect where
  Left : Int
  Top : Int
  Width : Int
  Height : Int
deriving DecidableEq, Repr

/-- `getRect` from `src/png2icons.ts`. -/
def getRect (left top width height : Int) : IRect :=
  { Left := left, Top := top, Width := width, Height := height }

/-- `getStretchedRect` from `src/png2icons.ts`: fit `src` proportionally
into `dst`, flooring the scaled dimension and centering the other axis. -/
def getStretchedRect (src dst : IRect) : IRect :=
  if (src.Width : ℚ) / (src.Height : ℚ) ≥ (dst.Width : ℚ) / (dst.Height : ℚ) then
    let f : ℚ := (dst.Width : ℚ) / (src.Width : ℚ)
    let tmp : Int := ⌊(src.Height : ℚ) * f⌋
    { Left := 0, Top := ⌊((dst.Height - tmp : Int) : ℚ) / 2⌋,
      Width := dst.Width, Height := tmp }
  else
    let f : ℚ := (dst.Height : ℚ) / (src.Height : ℚ)
    let tmp : Int := ⌊(src.Width : ℚ) * f⌋
    { Left := ⌊((dst.Width - tmp : Int) : ℚ) / 2⌋, Top := 0,
      Width := tmp, Height := dst.Height }

end Png2icons

/-- The claim's closed-form description of `getStretchedRect`. -/
theorem getStretchedRect_formula (src dst : Png2icons.IRect) :
    Png2icons.getStretchedRect src dst =
      if (src.Width : ℚ) / (src.Height : ℚ) ≥ (dst.Width : ℚ) / (dst.Height : ℚ) then
        { Left := 0,
          Top := ⌊((dst.Height : ℚ) - (⌊(src.Height : ℚ) * dst.Width / src.Width⌋ : Int)) / 2⌋,
          Width := dst.Width,
          Height := ⌊(src.Height : ℚ) * dst.Width / src.Width⌋ }
      else
        { Left := ⌊((dst.Width : ℚ) - (⌊(src.Width : ℚ) * dst.Height / src.Height⌋ : Int)) / 2⌋,
          Top := 0,
          Width := ⌊(src.Width : ℚ) * dst.Height / src.Height⌋,
          Height := dst.Height } := by
  simp only [Png2icons.getStretchedRect]
  split
  · rw [show (src.Height : ℚ) * ((dst.Width : ℚ) / (src.Width : ℚ)) =
        (src.Height : ℚ) * dst.Width / src.Width from (mul_div_assoc _ _ _).symm]
    congr 2
    push_cast
    ring
  · rw [show (src.Width : ℚ) * ((dst.Height : ℚ) / (src.Height : ℚ)) =
        (src.Width : ℚ) * dst.Height / src.Height from (mul_div_assoc _ _ _).symm]
    congr 2
    push_cast
    ring

/-- **C6** — Rect Fitter: the tie-break `src.Width/src.Height ≥
dst.Width/dst.Height` selects the width-bound fit, the scaled dimension is
`⌊srcAxis * dstAxis / srcAxis⌋` and the remaining axis is centered via
`⌊(dstAxis - scaledAxis) / 2⌋`; in particular
`fitRect({0,0,100,50},{0,0,64,64}) = {Left 0, Top 16, Width 64, Height 32}`. -/
theorem fitRect_spec :
    (∀ src dst : Png2icons.IRect,
      0 < src.Width → 0 < src.Height → 0 < dst.Width → 0 < dst.Height →
      Png2icons.getStretchedRect src dst =
        if (src.Width : ℚ) / (src.Height : ℚ) ≥ (dst.Width : ℚ) / (dst.Height : ℚ) then
          { Left := 0,
            Top := ⌊((dst.Height : ℚ) - (⌊(src.Height : ℚ) * dst.Width / src.Width⌋ : Int)) / 2⌋,
            Width := dst.Width,
            Height := ⌊(src.Height : ℚ) * dst.Width / src.Width⌋ }
        else
          { Left := ⌊((dst.Width : ℚ) - (⌊(src.Width : ℚ) * dst.Height / src.Height⌋ : Int)) / 2⌋,
            Top := 0,
            Width := ⌊(src.Width : ℚ) * dst.Height / src.Height⌋,
            Height := dst.Height }) ∧
    Png2icons.getStretchedRect (Png2icons.getRect 0 0 100 50) (Png2icons.getRect 0 0 64 64) =
      Png2icons.getRect 0 16 64 32 := by
  constructor
  · intro src dst _ _ _ _
    exact getStretchedRect_formula src dst
  · rw [getStretchedRect_formula]
    have hc : ((Png2icons.getRect 0 0 100 50).Width : ℚ) / ((Png2icons.getRect 0 0 100 50).Height : ℚ) ≥
        ((Png2icons.getRect 0 0 64 64).Width : ℚ) / ((Png2icons.getRect 0 0 64 64).Height : ℚ) := by
      norm_num [Png2icons.getRect]
    rw [if_pos hc]
    have h1 : ((Png2icons.getRect 0 0 100 50).Height : ℚ) * (Png2icons.getRect 0 0 64 64).Width /
        (Png2icons.getRect 0 0 100 50).Width = (32 : ℚ) := by
      norm_num [Png2icons.getRect]
    rw [h1]
    norm_num [Png2icons.getRect]

/-- Witness for C6's general clause at the concrete 100×50 → 64×64 instance. -/
theorem fitRect_spec_witness :
    (0 : Int) < (Png2icons.getRect 0 0 100 50).Width ∧
      Png2icons.getStretchedRect (Png2icons.getRect 0 0 100 50) (Png2icons.getRect 0 0 64 64) =
        if ((Png2icons.getRect 0 0 100 50).Width : ℚ) / ((Png2icons.getRect 0 0 100 50).Height : ℚ) ≥
            ((Png2icons.getRect 0 0 64 64).Width : ℚ) / ((Png2icons.getRect 0 0 64 64).Height : ℚ) then
          { Left := 0,
            Top := ⌊(((Png2icons.getRect 0 0 64 64).Height : ℚ) -
              (⌊((Png2icons.getRect 0 0 100 50).Height : ℚ) * (Png2icons.getRect 0 0 64 64).Width /
                (Png2icons.getRect 0 0 100 50).Width⌋ : Int)) / 2⌋,
            Width := (Png2icons.getRect 0 0 64 64).Width,
            Height := ⌊((Png2icons.getRect 0 0 100 50).Height : ℚ) *
              (Png2icons.getRect 0 0 64 64).Width / (Png2icons.getRect 0 0 100 50).Width⌋ }
        else
          { Left := ⌊(((Png2icons.getRect 0 0 64 64).Width : ℚ) -
              (⌊((Png2icons.getRect 0 0 100 50).Width : ℚ) * (Png2icons.getRect 0 0 64 64).Height /
                (Png2icons.getRect 0 0 100 50).Height⌋ : Int)) / 2⌋,
            Top := 0,
            Width := ⌊((Png2icons.getRect 0 0 100 50).Width : ℚ) *
              (Png2icons.getRect 0 0 64 64).Height / (Png2icons.getRect 0 0 100 50).Height⌋,
            Height := (Png2icons.getRect 0 0 64 64).Height } :=
  ⟨by decide,
    fitRect_spec.1 (Png2icons.getRect 0 0 100 50) (Png2icons.getRect 0 0 64 64)
      (by decide) (by decide) (by decide) (by decide)⟩

namespace Png2icons

/-! ## src/png2icons.ts — images, blitting, the Square Padder -/

/-- `Image` from `src/lib/Image.d.ts`: a raw RGBA bitmap with dimensions. -/
structure Image where
  data : List Nat
  width : Nat
  height : Nat
deriving DecidableEq, Repr

/-- JS `Math.round` (halves are rounded towards positive infinity). -/
def jsRound (q : ℚ) : Int := ⌊q + 1 / 2⌋

/-- `scanImage` from `src/png2icons.ts`: visits the region row-major (outer
loop over rows) and feeds pixel coordinates and the pixel's buffer index to
`f`; the JS callback mutates the target buffer, modelled by threading it as
an accumulator. -/
def scanImage (image : Image) (x y w h : Nat)
    (f : Nat → Nat → Nat → List Nat → List Nat) (init : List Nat) : List Nat :=
  (List.range h).foldl (fun acc dy =>
    (List.range w).foldl (fun acc dx =>
      f (x + dx) (y + dy) ((image.width * (y + dy) + (x + dx)) * 4) acc) acc) init

/-- The pixel-copy callback of `blit`: guarded by the defensive clipping
test, it copies the pixel's four RGBA bytes to the target position
(out-of-range `Uint8Array` reads yield 0 and writes are dropped, exactly
the behaviour of `List.getD`/`List.set`; inside the guard the destination
index is nonnegative). -/
def blitPixel (source target : Image) (x y : Int) (sx sy idx : Nat)
    (d : List Nat) : List Nat :=
  if 0 ≤ x + sx ∧ 0 ≤ y + sy ∧ 0 < (target.width : Int) - x - sx ∧
      0 < (target.height : Int) - y - sy then
    let destIdx : Nat := (((target.width : Int) * (y + sy) + (x + sx)) * 4).toNat
    (((d.set destIdx (source.data.getD idx 0)).set
        (destIdx + 1) (source.data.getD (idx + 1) 0)).set
      (destIdx + 2) (source.data.getD (idx + 2) 0)).set
      (destIdx + 3) (source.data.getD (idx + 3) 0)
  else d

/-- `blit` from `src/png2icons.ts` (rounds the blit position first). -/
def blit (source target : Image) (x y : ℚ) : Image :=
  { target with
    data := scanImage source 0 0 source.width source.height
      (blitPixel source target (jsRound x) (jsRound y)) target.data }

/-- `getQuadraticImage` from `src/png2icons.ts`. -/
def getQuadraticImage (image : Image) : Image :=
  if image.height = image.width then image
  else if image.height > image.width then
    blit image
      { data := List.replicate (image.height * image.height * 4) 0,
        width := image.height, height := image.height }
      (((image.height : ℚ) - (image.width : ℚ)) / 2) 0
  else
    blit image
      { data := List.replicate (image.width * image.width * 4) 0,
        width := image.width, height := image.width }
      0 (((image.width : ℚ) - (image.height : ℚ)) / 2)

/-- The Square Padder exactly as claim C3 words it: identical to
`getQuadraticImage` except that the centering offset of the shorter axis is
`(edgeLength - shorterAxis) / 2` with integer division (floor). -/
def getQuadraticImageFloorSpec (image : Image) : Image :=
  if image.height = image.width then image
  else if image.height > image.width then
    blit image
      { data := List.replicate (image.height * image.height * 4) 0,
        width := image.height, height := image.height }
      (((image.height - image.width) / 2 : Nat) : ℚ) 0
  else
    blit image
      { data := List.replicate (image.width * image.width * 4) 0,
        width := image.width, height := image.width }
      0 (((image.width - image.height) / 2 : Nat) : ℚ)

theorem floor_natCast_div_two (n : Nat) : ⌊((n : ℚ)) / 2⌋ = (n / 2 : Nat) := by
  rw [Int.floor_eq_iff]
  constructor
  · rw [le_div_iff (by norm_num : (0:ℚ) < 2)]
    exact_mod_cast (by omega : n / 2 * 2 ≤ n)
  · rw [div_lt_iff (by norm_num : (0:ℚ) < 2)]
    push_cast
    exact_mod_cast (by omega : n < (n / 2 + 1) * 2)

theorem jsRound_natCast (n : Nat) : jsRound (n : ℚ) = n := by
  rw [jsRound, Int.floor_eq_iff]
  constructor
  · push_cast; linarith
  · push_cast; linarith

theorem jsRound_zero : jsRound 0 = 0 := by
  have h := jsRound_natCast 0
  simpa using h

/-- The rounded half-difference offset equals round-half-up integer
division. -/
theorem jsRound_half_sub (a b : Nat) (h : b < a) :
    jsRound (((a : ℚ) - b) / 2) = ((a - b + 1) / 2 : Nat) := by
  have hm : ((a : ℚ) - b) / 2 + 1 / 2 = ((a - b + 1 : Nat) : ℚ) / 2 := by
    push_cast [Nat.cast_sub h.le]
    ring
  rw [jsRound, hm, floor_natCast_div_two]

theorem foldl_foldl_product {α : Type} (g : α → Nat → Nat → α)
    (ys xs : List Nat) (init : α) :
    ys.foldl (fun acc y => xs.foldl (fun acc x => g acc y x) acc) init
      = (ys ×ˢ xs).foldl (fun acc p => g acc p.1 p.2) init := by
  induction ys generalizing init with
  | nil => rfl
  | cons y ys ih =>
    simp only [List.foldl_cons, List.product_cons, List.foldl_append, List.foldl_map]
    exact ih _

theorem scanImage_zero_eq (img : Image) (w h : Nat)
    (f : Nat → Nat → Nat → List Nat → List Nat) (init : List Nat) :
    scanImage img 0 0 w h f init
      = ((List.range h) ×ˢ (List.range w)).foldl
          (fun acc p => f p.2 p.1 ((img.width * p.1 + p.2) * 4) acc) init := by
  unfold scanImage
  simp only [Nat.zero_add]
  exact foldl_foldl_product (fun acc dy dx => f dx dy ((img.width * dy + dx) * 4) acc) _ _ _

theorem grid_inj {E a b c d : Nat} (hb : b < E) (hd : d < E)
    (h : E * a + b = E * c + d) : a = c ∧ b = d := by
  have hE : 0 < E := Nat.pos_of_ne_zero (by omega)
  have h1 : (E * a + b) / E = a := by
    rw [Nat.mul_add_div hE, Nat.div_eq_of_lt hb, Nat.add_zero]
  have h2 : (E * c + d) / E = c := by
    rw [Nat.mul_add_div hE, Nat.div_eq_of_lt hd, Nat.add_zero]
  have h3 : a = c := by rw [← h1, ← h2, h]
  constructor
  · exact h3
  · subst h3; omega

theorem cell_lt {W H xi yi : Nat} (hx : xi < W) (hy : yi < H) :
    W * yi + xi < W * H :=
  calc W * yi + xi < W * yi + W := by omega
  _ = W * (yi + 1) := by ring
  _ ≤ W * H := Nat.mul_le_mul_left W hy

end Png2icons

namespace Png2icons

theorem getD_set_ne (l : List Nat) {i k : Nat} (v : Nat) (h : i ≠ k) :
    (l.set i v).getD k 0 = l.getD k 0 := by
  simp [List.getD_eq_getElem?_getD, List.getElem?_set_ne h]

theorem getD_set_self (l : List Nat) {i : Nat} (v : Nat) (h : i < l.length) :
    (l.set i v).getD i 0 = v := by
  simp [List.getD_eq_getElem?_getD, List.getElem?_set_self, h]

theorem blitPixel_length (src T : Image) (x y : Int) (sx sy idx : Nat)
    (d : List Nat) : (blitPixel src T x y sx sy idx d).length = d.length := by
  unfold blitPixel
  split <;> simp

/-- Inside the clipping guard, `blitPixel` is four `set`s at the
destination pixel's base index. -/
theorem blitPixel_eq (src T : Image) (ox oy sx sy idx : Nat) (d : List Nat)
    (hx : ox + sx < T.width) (hy : oy + sy < T.height) :
    blitPixel src T (ox : Int) (oy : Int) sx sy idx d =
      (((d.set ((T.width * (oy + sy) + (ox + sx)) * 4) (src.data.getD idx 0)).set
          ((T.width * (oy + sy) + (ox + sx)) * 4 + 1) (src.data.getD (idx + 1) 0)).set
        ((T.width * (oy + sy) + (ox + sx)) * 4 + 2) (src.data.getD (idx + 2) 0)).set
        ((T.width * (oy + sy) + (ox + sx)) * 4 + 3) (src.data.getD (idx + 3) 0) := by
  have hidx : (((T.width : Int) * ((oy : Int) + sy) + ((ox : Int) + sx)) * 4).toNat
      = (T.width * (oy + sy) + (ox + sx)) * 4 := by
    have hcast : ((T.width : Int) * ((oy : Int) + sy) + ((ox : Int) + sx)) * 4
        = ((T.width * (oy + sy) + (ox + sx)) * 4 : Nat) := by
      push_cast
      ring
    rw [hcast, Int.toNat_natCast]
  unfold blitPixel
  rw [if_pos]
  · rw [hidx]
  · refine ⟨?_, ?_, ?_, ?_⟩ <;> push_cast <;> omega

theorem foldl_blit_length (src T : Image) (x y : Int)
    (ps : List (Nat × Nat)) (d : List Nat) :
    (ps.foldl (fun acc p =>
        blitPixel src T x y p.2 p.1 ((src.width * p.1 + p.2) * 4) acc) d).length
      = d.length := by
  induction ps generalizing d with
  | nil => rfl
  | cons q qs ih =>
    rw [List.foldl_cons, ih, blitPixel_length]

/-- Indices not written by any pixel of `ps` keep their initial value. -/
theorem foldl_blit_untouched (src T : Image) (ox oy : Nat)
    (ps : List (Nat × Nat)) (d : List Nat) (k : Nat)
    (hin : ∀ p ∈ ps, ox + p.2 < T.width ∧ oy + p.1 < T.height)
    (hk : ∀ p ∈ ps, ∀ c < 4, (T.width * (oy + p.1) + (ox + p.2)) * 4 + c ≠ k) :
    (ps.foldl (fun acc p =>
        blitPixel src T (ox : Int) (oy : Int) p.2 p.1 ((src.width * p.1 + p.2) * 4) acc) d).getD k 0
      = d.getD k 0 := by
  induction ps generalizing d with
  | nil => rfl
  | cons q qs ih =>
    rw [List.foldl_cons,
      ih _ (fun p hp => hin p (List.mem_cons_of_mem _ hp))
        (fun p hp => hk p (List.mem_cons_of_mem _ hp))]
    have hq := hin q (List.mem_cons_self _ _)
    rw [blitPixel_eq src T ox oy q.2 q.1 _ d hq.1 hq.2]
    have h0 := hk q (List.mem_cons_self _ _) 0 (by omega)
    have h1 := hk q (List.mem_cons_self _ _) 1 (by omega)
    have h2 := hk q (List.mem_cons_self _ _) 2 (by omega)
    have h3 := hk q (List.mem_cons_self _ _) 3 (by omega)
    rw [getD_set_ne _ _ (by omega), getD_set_ne _ _ (by omega),
      getD_set_ne _ _ (by omega), getD_set_ne _ _ (by omega)]

/-- The index written for pixel `q`, channel `c`, ends up holding the
source byte of that pixel and channel. -/
theorem foldl_blit_written (src T : Image) (ox oy : Nat)
    (ps : List (Nat × Nat)) (d : List Nat) (q : Nat × Nat) (c : Nat)
    (hq : q ∈ ps) (hc : c < 4) (hnd : ps.Nodup)
    (hin : ∀ p ∈ ps, p.2 < src.width ∧ p.1 < src.height)
    (hw : ox + src.width ≤ T.width) (hh : oy + src.height ≤ T.height)
    (hlen : d.length = T.width * T.height * 4) :
    (ps.foldl (fun acc p =>
        blitPixel src T (ox : Int) (oy : Int) p.2 p.1 ((src.width * p.1 + p.2) * 4) acc) d).getD
        ((T.width * (oy + q.1) + (ox + q.2)) * 4 + c) 0
      = src.data.getD ((src.width * q.1 + q.2) * 4 + c) 0 := by
  induction ps generalizing d with
  | nil => simp at hq
  | cons p₀ qs ih =>
    rw [List.foldl_cons]
    rcases List.mem_cons.mp hq with rfl | hq'
    · have hin₀ := hin q (List.mem_cons_self _ _)
      have hxq : ox + q.2 < T.width := by omega
      have hyq : oy + q.1 < T.height := by omega
      rw [foldl_blit_untouched src T ox oy qs _ _ ?hin2 ?hk]
      case hin2 =>
        intro p hp
        have := hin p (List.mem_cons_of_mem _ hp)
        omega
      case hk =>
        intro p hp c' hc' heq
        have hpin := hin p (List.mem_cons_of_mem _ hp)
        have hsplit : c' = c ∧
            T.width * (oy + p.1) + (ox + p.2) = T.width * (oy + q.1) + (ox + q.2) := by
          omega
        obtain ⟨rfl, hXY⟩ := hsplit
        have hcoord := grid_inj (show ox + p.2 < T.width by omega) hxq hXY
        have hpq : p = q := Prod.ext (by omega) (by omega)
        subst hpq
        exact (List.nodup_cons.mp hnd).1 hp
      rw [blitPixel_eq src T ox oy q.2 q.1 _ d hxq hyq]
      have hcell := cell_lt hxq hyq
      have hB : ((T.width * (oy + q.1) + (ox + q.2)) + 1) * 4 ≤ T.width * T.height * 4 :=
        Nat.mul_le_mul_right 4 (by omega)
      interval_cases c
      · rw [getD_set_ne _ _ (by omega), getD_set_ne _ _ (by omega),
          getD_set_ne _ _ (by omega)]
        show (d.set ((T.width * (oy + q.1) + (ox + q.2)) * 4)
            (src.data.getD ((src.width * q.1 + q.2) * 4) 0)).getD
            ((T.width * (oy + q.1) + (ox + q.2)) * 4) 0 =
          src.data.getD ((src.width * q.1 + q.2) * 4) 0
        exact getD_set_self _ _ (by omega)
      · rw [getD_set_ne _ _ (by omega), getD_set_ne _ _ (by omega),
          getD_set_self _ _ (by simp only [List.length_set]; omega)]
      · rw [getD_set_ne _ _ (by omega),
          getD_set_self _ _ (by simp only [List.length_set]; omega)]
      · rw [getD_set_self _ _ (by simp only [List.length_set]; omega)]
    · have hlen' : (blitPixel src T (ox : Int) (oy : Int) p₀.2 p₀.1
          ((src.width * p₀.1 + p₀.2) * 4) d).length = T.width * T.height * 4 := by
        rw [blitPixel_length]; exact hlen
      exact ih _ hq' (List.nodup_cons.mp hnd).2
        (fun p hp => hin p (List.mem_cons_of_mem _ hp)) hlen'

/-- Pointwise description of blitting onto an all-zero square canvas. -/
theorem blit_replicate_getD (image : Image) (E : Nat) (x y : ℚ) (ox oy : Nat)
    (hx : jsRound x = ox) (hy : jsRound y = oy)
    (hw : ox + image.width ≤ E) (hh : oy + image.height ≤ E)
    (px py c : Nat) (hpx : px < E) (hpy : py < E) (hc : c < 4) :
    (blit image ⟨List.replicate (E * E * 4) 0, E, E⟩ x y).data.getD
        ((E * py + px) * 4 + c) 0 =
      if ox ≤ px ∧ px < ox + image.width ∧ oy ≤ py ∧ py < oy + image.height then
        image.data.getD ((image.width * (py - oy) + (px - ox)) * 4 + c) 0
      else 0 := by
  unfold blit
  simp only [hx, hy]
  rw [scanImage_zero_eq]
  have hmem : ∀ p ∈ (List.range image.height) ×ˢ (List.range image.width),
      p.1 < image.height ∧ p.2 < image.width := by
    intro p hp
    obtain ⟨a, b⟩ := p
    rw [List.mem_product] at hp
    simpa using hp
  split
  next hins =>
    obtain ⟨h1, h2, h3, h4⟩ := hins
    have hq : ((py - oy, px - ox) : Nat × Nat) ∈
        (List.range image.height) ×ˢ (List.range image.width) := by
      rw [List.mem_product]
      constructor <;> rw [List.mem_range] <;> omega
    have := foldl_blit_written image ⟨List.replicate (E * E * 4) 0, E, E⟩ ox oy
      ((List.range image.height) ×ˢ (List.range image.width))
      (List.replicate (E * E * 4) 0) (py - oy, px - ox) c hq hc
      (List.Nodup.product (List.nodup_range _) (List.nodup_range _))
      (fun p hp => ⟨(hmem p hp).2, (hmem p hp).1⟩) hw hh
      (by simp)
    have hoy : oy + (py - oy) = py := by omega
    have hox : ox + (px - ox) = px := by omega
    rw [hoy, hox] at this
    exact this
  next hout =>
    rw [foldl_blit_untouched image ⟨List.replicate (E * E * 4) 0, E, E⟩ ox oy _ _ _
      (fun p hp => ⟨by have := hmem p hp; show ox + p.2 < E; omega,
        by have := hmem p hp; show oy + p.1 < E; omega⟩) ?hk]
    · simp
    case hk =>
      intro p hp c' hc' heq
      have hpin := hmem p hp
      have heq' : (E * (oy + p.1) + (ox + p.2)) * 4 + c' = (E * py + px) * 4 + c := heq
      have hsplit : c' = c ∧ E * (oy + p.1) + (ox + p.2) = E * py + px := by
        omega
      obtain ⟨rfl, hXY⟩ := hsplit
      have hcoord := grid_inj (show ox + p.2 < E by omega) hpx hXY
      exact hout ⟨by omega, by omega, by omega, by omega⟩

end Png2icons

namespace Png2icons

/-- Full pointwise description of `getQuadraticImage` on a non-square
source: a square canvas of edge `max height width`, the shorter axis
centered with round-half-up (`(d + 1) / 2`), every pixel outside the
blitted region all-zero. -/
theorem getQuadraticImage_char (image : Image) (hne : image.height ≠ image.width) :
    (getQuadraticImage image).width = max image.height image.width ∧
    (getQuadraticImage image).height = max image.height image.width ∧
    (getQuadraticImage image).data.length
      = max image.height image.width * max image.height image.width * 4 ∧
    (∀ px py c, px < max image.height image.width →
      py < max image.height image.width → c < 4 →
      (getQuadraticImage image).data.getD
          ((max image.height image.width * py + px) * 4 + c) 0 =
        if (if image.width < image.height then (image.height - image.width + 1) / 2 else 0) ≤ px ∧
            px < (if image.width < image.height then (image.height - image.width + 1) / 2 else 0)
              + image.width ∧
            (if image.width < image.height then 0 else (image.width - image.height + 1) / 2) ≤ py ∧
            py < (if image.width < image.height then 0 else (image.width - image.height + 1) / 2)
              + image.height then
          image.data.getD ((image.width *
            (py - (if image.width < image.height then 0
              else (image.width - image.height + 1) / 2)) +
            (px - (if image.width < image.height then (image.height - image.width + 1) / 2
              else 0))) * 4 + c) 0
        else 0) := by
  by_cases hgt : image.width < image.height
  · have hE : max image.height image.width = image.height := max_eq_left (le_of_lt hgt)
    have he : getQuadraticImage image =
        blit image ⟨List.replicate (image.height * image.height * 4) 0,
          image.height, image.height⟩
          (((image.height : ℚ) - (image.width : ℚ)) / 2) 0 := by
      simp only [getQuadraticImage, if_neg hne, if_pos hgt]
    have hx : jsRound (((image.height : ℚ) - (image.width : ℚ)) / 2)
        = ((image.height - image.width + 1) / 2 : Nat) := jsRound_half_sub _ _ hgt
    have hy : jsRound 0 = ((0 : Nat) : Int) := by rw [jsRound_zero]; simp
    refine ⟨by rw [he, hE]; rfl, by rw [he, hE]; rfl, ?_, ?_⟩
    · rw [he, hE]
      unfold blit
      simp only
      rw [scanImage_zero_eq, foldl_blit_length]
      simp
    · intro px py c hpx hpy hc
      rw [hE] at hpx hpy
      rw [he, hE]
      simp only [if_pos hgt]
      exact blit_replicate_getD image image.height _ 0
        ((image.height - image.width + 1) / 2) 0 hx hy (by omega) (by omega)
        px py c hpx hpy hc
  · have hlt : image.height < image.width := by omega
    have hE : max image.height image.width = image.width := max_eq_right (le_of_lt hlt)
    have he : getQuadraticImage image =
        blit image ⟨List.replicate (image.width * image.width * 4) 0,
          image.width, image.width⟩
          0 (((image.width : ℚ) - (image.height : ℚ)) / 2) := by
      simp only [getQuadraticImage, if_neg hne, if_neg hgt]
    have hy : jsRound (((image.width : ℚ) - (image.height : ℚ)) / 2)
        = ((image.width - image.height + 1) / 2 : Nat) := jsRound_half_sub _ _ hlt
    have hx : jsRound 0 = ((0 : Nat) : Int) := by rw [jsRound_zero]; simp
    refine ⟨by rw [he, hE]; rfl, by rw [he, hE]; rfl, ?_, ?_⟩
    · rw [he, hE]
      unfold blit
      simp only
      rw [scanImage_zero_eq, foldl_blit_length]
      simp
    · intro px py c hpx hpy hc
      rw [hE] at hpx hpy
      rw [he, hE]
      simp only [if_neg hgt]
      exact blit_replicate_getD image image.width _ _
        0 ((image.width - image.height + 1) / 2) hx hy (by omega) (by omega)
        px py c hpx hpy hc

/-- Concrete 1×2 input exercising the odd-difference centering. -/
def c3ex : Image := { data := [10, 20, 30, 40, 50, 60, 70, 80], width := 1, height := 2 }

end Png2icons

/-- **C3 (amended)** — Square Padder: an already-square source is returned
unchanged; a non-square source is blitted onto an all-zero (transparent)
square canvas of edge `max(width, height)` with the shorter axis offset by
`round((edgeLength - shorterAxis) / 2)` — i.e. `(edgeLength - shorterAxis
+ 1) / 2` with integer division (round half up, **not** floor as the claim
states) — and every pixel outside the blitted region is all-zero. -/
theorem squarePad_amended :
    (∀ image : Png2icons.Image, image.height = image.width →
      Png2icons.getQuadraticImage image = image) ∧
    (∀ image : Png2icons.Image, image.height ≠ image.width →
      (Png2icons.getQuadraticImage image).width = max image.height image.width ∧
      (Png2icons.getQuadraticImage image).height = max image.height image.width ∧
      (Png2icons.getQuadraticImage image).data.length
        = max image.height image.width * max image.height image.width * 4 ∧
      (∀ px py c, px < max image.height image.width →
        py < max image.height image.width → c < 4 →
        (Png2icons.getQuadraticImage image).data.getD
            ((max image.height image.width * py + px) * 4 + c) 0 =
          if (if image.width < image.height then (image.height - image.width + 1) / 2 else 0)
                ≤ px ∧
              px < (if image.width < image.height then (image.height - image.width + 1) / 2
                else 0) + image.width ∧
              (if image.width < image.height then 0 else (image.width - image.height + 1) / 2)
                ≤ py ∧
              py < (if image.width < image.height then 0
                else (image.width - image.height + 1) / 2) + image.height then
            image.data.getD ((image.width *
              (py - (if image.width < image.height then 0
                else (image.width - image.height + 1) / 2)) +
              (px - (if image.width < image.height then (image.height - image.width + 1) / 2
                else 0))) * 4 + c) 0
          else 0)) :=
  ⟨fun image h => by simp only [Png2icons.getQuadraticImage, if_pos h],
    Png2icons.getQuadraticImage_char⟩

/-- Counterexample to C3 as stated: for the 1×2 source `c3ex` the code's
centering offset is `Math.round(1/2) = 1`, not `floor(1/2) = 0`, so the
padded image differs from the claim's floor-offset padding. -/
theorem squarePad_floor_counterexample :
    Png2icons.getQuadraticImage Png2icons.c3ex
      ≠ Png2icons.getQuadraticImageFloorSpec Png2icons.c3ex := by
  have h := (Png2icons.getQuadraticImage_char Png2icons.c3ex (by decide)).2.2.2
    0 0 0 (by decide) (by decide) (by decide)
  have hA : (Png2icons.getQuadraticImage Png2icons.c3ex).data.getD 0 0 = 0 := by
    have hA0 : (Png2icons.getQuadraticImage Png2icons.c3ex).data.getD
        ((max Png2icons.c3ex.height Png2icons.c3ex.width * 0 + 0) * 4 + 0) 0 = 0 := by
      rw [h]; decide
    exact hA0
  have he : Png2icons.getQuadraticImageFloorSpec Png2icons.c3ex =
      Png2icons.blit Png2icons.c3ex
        ⟨List.replicate (Png2icons.c3ex.height * Png2icons.c3ex.height * 4) 0,
          Png2icons.c3ex.height, Png2icons.c3ex.height⟩
        (((Png2icons.c3ex.height - Png2icons.c3ex.width) / 2 : Nat) : ℚ) 0 := by
    simp only [Png2icons.getQuadraticImageFloorSpec, if_neg (show ¬ Png2icons.c3ex.height
      = Png2icons.c3ex.width by decide),
      if_pos (show Png2icons.c3ex.height > Png2icons.c3ex.width by decide)]
  have hBx : Png2icons.jsRound (((Png2icons.c3ex.height - Png2icons.c3ex.width) / 2 : Nat) : ℚ)
      = ((0 : Nat) : Int) := by
    rw [Png2icons.jsRound_natCast]; decide
  have hBy : Png2icons.jsRound 0 = ((0 : Nat) : Int) := by
    rw [Png2icons.jsRound_zero]; simp
  have hB0 := Png2icons.blit_replicate_getD Png2icons.c3ex Png2icons.c3ex.height _ _ 0 0
    hBx hBy (by decide) (by decide) 0 0 0 (by decide) (by decide) (by decide)
  have hB : (Png2icons.getQuadraticImageFloorSpec Png2icons.c3ex).data.getD 0 0 = 10 := by
    have hB1 : (Png2icons.getQuadraticImageFloorSpec Png2icons.c3ex).data.getD
        ((Png2icons.c3ex.height * 0 + 0) * 4 + 0) 0 = 10 := by
      rw [he, hB0]; decide
    exact hB1
  intro hEq
  have h2 : (Png2icons.getQuadraticImage Png2icons.c3ex).data.getD 0 0
      = (Png2icons.getQuadraticImageFloorSpec Png2icons.c3ex).data.getD 0 0 := by rw [hEq]
  rw [hA, hB] at h2
  exact absurd h2 (by decide)

/-- Witness for the amended C3: the square clause at a 1×1 image, and the
pointwise clause of the padded 1×2 image at pixel (1,0), channel 0. -/
theorem squarePad_amended_witness :
    ((Png2icons.Image.mk [1, 2, 3, 4] 1 1).height
        = (Png2icons.Image.mk [1, 2, 3, 4] 1 1).width ∧
      Png2icons.getQuadraticImage (Png2icons.Image.mk [1, 2, 3, 4] 1 1)
        = Png2icons.Image.mk [1, 2, 3, 4] 1 1) ∧
    (Png2icons.c3ex.height ≠ Png2icons.c3ex.width ∧
      (Png2icons.getQuadraticImage Png2icons.c3ex).data.getD
          ((max Png2icons.c3ex.height Png2icons.c3ex.width * 0 + 1) * 4 + 0) 0 =
        if (if Png2icons.c3ex.width < Png2icons.c3ex.height then
              (Png2icons.c3ex.height - Png2icons.c3ex.width + 1) / 2 else 0) ≤ 1 ∧
            1 < (if Png2icons.c3ex.width < Png2icons.c3ex.height then
              (Png2icons.c3ex.height - Png2icons.c3ex.width + 1) / 2 else 0)
              + Png2icons.c3ex.width ∧
            (if Png2icons.c3ex.width < Png2icons.c3ex.height then 0
              else (Png2icons.c3ex.width - Png2icons.c3ex.height + 1) / 2) ≤ 0 ∧
            0 < (if Png2icons.c3ex.width < Png2icons.c3ex.height then 0
              else (Png2icons.c3ex.width - Png2icons.c3ex.height + 1) / 2)
              + Png2icons.c3ex.height then
          Png2icons.c3ex.data.getD ((Png2icons.c3ex.width *
            (0 - (if Png2icons.c3ex.width < Png2icons.c3ex.height then 0
              else (Png2icons.c3ex.width - Png2icons.c3ex.height + 1) / 2)) +
            (1 - (if Png2icons.c3ex.width < Png2icons.c3ex.height then
              (Png2icons.c3ex.height - Png2icons.c3ex.width + 1) / 2 else 0))) * 4 + 0) 0
        else 0) :=
  ⟨⟨rfl, squarePad_amended.1 _ rfl⟩,
    ⟨by decide, (squarePad_amended.2 Png2icons.c3ex (by decide)).2.2.2
      1 0 0 (by decide) (by decide) (by decide)⟩⟩

namespace Resize4

/-! ## src/lib/resize4.js — fast bicubic variant (`bicubic`)

Only the source-buffer index computations matter for claim C5; they are
embedded here definition-by-definition from the loop body of `bicubic`
(lines 111–196).  The four per-axis sample offsets are the `offset_row*`
and `offset_col*` variables; reads happen at `offset_row_k + channel +
offset_col_l` for `k, l, channel ∈ {0..3}` (the row offsets are
incremented by one between the red/green/blue/alpha passes).
-/

/-- `iyv = i / scale; iy0 = Math.floor(iyv)` (and likewise for `ix0`). -/
def coord0 (scale : ℚ) (v : Nat) : Int := ⌊(v : ℚ) / scale⌋

/-- The per-axis border `repeat` offset
(`repeatY = 0; if (iy0 < 1) repeatY = -1; else if (iy0 > h - 3) repeatY = iy0 - (h - 3)`). -/
def repeatOff (size : Nat) (v0 : Int) : Int :=
  if v0 < 1 then -1
  else if v0 > (size : Int) - 3 then v0 - ((size : Int) - 3) else 0

/-- `offset_row1 = ((iy0) * srcImg.width + ix0) * 4`. -/
def offRow1 (srcW : Nat) (iy0 ix0 : Int) : Int := (iy0 * srcW + ix0) * 4

/-- `offset_row0 = repeatY < 0 ? offset_row1 : ((iy0 - 1) * w + ix0) * 4`. -/
def offRow0 (srcW srcH : Nat) (iy0 ix0 : Int) : Int :=
  if repeatOff srcH iy0 < 0 then offRow1 srcW iy0 ix0 else ((iy0 - 1) * srcW + ix0) * 4

/-- `offset_row2 = repeatY > 1 ? offset_row1 : ((iy0 + 1) * w + ix0) * 4`. -/
def offRow2 (srcW srcH : Nat) (iy0 ix0 : Int) : Int :=
  if repeatOff srcH iy0 > 1 then offRow1 srcW iy0 ix0 else ((iy0 + 1) * srcW + ix0) * 4

/-- `offset_row3 = repeatY > 0 ? offset_row2 : ((iy0 + 2) * w + ix0) * 4`. -/
def offRow3 (srcW srcH : Nat) (iy0 ix0 : Int) : Int :=
  if repeatOff srcH iy0 > 0 then offRow2 srcW srcH iy0 ix0 else ((iy0 + 2) * srcW + ix0) * 4

/-- `offset_col0 = repeatX < 0 ? offset_col1 : -4` (`offset_col1 = 0`). -/
def offCol0 (srcW : Nat) (ix0 : Int) : Int :=
  if repeatOff srcW ix0 < 0 then 0 else -4

/-- `offset_col2 = repeatX > 1 ? offset_col1 : 4`. -/
def offCol2 (srcW : Nat) (ix0 : Int) : Int :=
  if repeatOff srcW ix0 > 1 then 0 else 4

/-- `offset_col3 = repeatX > 0 ? offset_col2 : 8`. -/
def offCol3 (srcW : Nat) (ix0 : Int) : Int :=
  if repeatOff srcW ix0 > 0 then offCol2 srcW ix0 else 8

/-- All 64 source-data indices the `bicubic` loop body reads for the
destination pixel `(j, i)`: 4 rows × 4 channels × 4 columns. -/
def bicubicReadIndices (srcW srcH : Nat) (scale : ℚ) (i j : Nat) : List Int :=
  let iy0 := coord0 scale i
  let ix0 := coord0 scale j
  [offRow0 srcW srcH iy0 ix0, offRow1 srcW iy0 ix0,
    offRow2 srcW srcH iy0 ix0, offRow3 srcW srcH iy0 ix0].flatMap (fun r =>
    ([0, 1, 2, 3] : List Int).flatMap (fun ch =>
      [offCol0 srcW ix0, 0, offCol2 srcW ix0, offCol3 srcW ix0].map (fun c => r + ch + c)))

/-- Sign characterizations of the `repeat` offset. -/
theorem repeatOff_neg_iff (size : Nat) (v0 : Int) :
    repeatOff size v0 < 0 ↔ v0 < 1 := by
  unfold repeatOff
  split_ifs <;> omega

theorem repeatOff_pos_iff (size : Nat) (v0 : Int) :
    repeatOff size v0 > 0 ↔ 1 ≤ v0 ∧ (size : Int) - 3 < v0 := by
  unfold repeatOff
  split_ifs <;> omega

theorem repeatOff_gt_one_iff (size : Nat) (v0 : Int) :
    repeatOff size v0 > 1 ↔ 1 ≤ v0 ∧ (size : Int) - 2 < v0 := by
  unfold repeatOff
  split_ifs <;> omega

/-- Every row offset addresses a valid source row when the source has at
least 3 rows and `iy0` is a valid row. -/
theorem offRow_bounds (srcW srcH : Nat) (iy0 ix0 : Int) (hH : 3 ≤ srcH)
    (h0 : 0 ≤ iy0) (h1 : iy0 < (srcH : Int)) (r : Int)
    (hr : r ∈ [offRow0 srcW srcH iy0 ix0, offRow1 srcW iy0 ix0,
      offRow2 srcW srcH iy0 ix0, offRow3 srcW srcH iy0 ix0]) :
    ∃ yr : Int, 0 ≤ yr ∧ yr < (srcH : Int) ∧ r = (yr * srcW + ix0) * 4 := by
  have hHi : (3 : Int) ≤ (srcH : Int) := by exact_mod_cast hH
  simp only [List.mem_cons, List.not_mem_nil, or_false] at hr
  rcases hr with rfl | rfl | rfl | rfl
  · by_cases hlow : iy0 < 1
    · rw [offRow0, if_pos ((repeatOff_neg_iff srcH iy0).mpr hlow)]
      exact ⟨iy0, h0, h1, by rw [offRow1]⟩
    · rw [offRow0, if_neg (fun hcon => hlow ((repeatOff_neg_iff srcH iy0).mp hcon))]
      exact ⟨iy0 - 1, by omega, by omega, rfl⟩
  · exact ⟨iy0, h0, h1, by rw [offRow1]⟩
  · by_cases htop : 1 ≤ iy0 ∧ (srcH : Int) - 2 < iy0
    · rw [offRow2, if_pos ((repeatOff_gt_one_iff srcH iy0).mpr htop)]
      exact ⟨iy0, h0, h1, by rw [offRow1]⟩
    · rw [offRow2, if_neg (fun hcon => htop ((repeatOff_gt_one_iff srcH iy0).mp hcon))]
      exact ⟨iy0 + 1, by omega, by omega, rfl⟩
  · by_cases hpos : 1 ≤ iy0 ∧ (srcH : Int) - 3 < iy0
    · rw [offRow3, if_pos ((repeatOff_pos_iff srcH iy0).mpr hpos)]
      by_cases htop : 1 ≤ iy0 ∧ (srcH : Int) - 2 < iy0
      · rw [offRow2, if_pos ((repeatOff_gt_one_iff srcH iy0).mpr htop)]
        exact ⟨iy0, h0, h1, by rw [offRow1]⟩
      · rw [offRow2, if_neg (fun hcon => htop ((repeatOff_gt_one_iff srcH iy0).mp hcon))]
        exact ⟨iy0 + 1, by omega, by omega, rfl⟩
    · rw [offRow3, if_neg (fun hcon => hpos ((repeatOff_pos_iff srcH iy0).mp hcon))]
      exact ⟨iy0 + 2, by omega, by omega, rfl⟩

/-- Every column offset is `4 * dx` for a horizontal shift `dx` keeping the
sampled column valid, when the source has at least 3 columns and `ix0` is a
valid column. -/
theorem offCol_bounds (srcW : Nat) (ix0 : Int) (hW : 3 ≤ srcW)
    (h0 : 0 ≤ ix0) (h1 : ix0 < (srcW : Int)) (c : Int)
    (hc : c ∈ [offCol0 srcW ix0, 0, offCol2 srcW ix0, offCol3 srcW ix0]) :
    ∃ dx : Int, c = 4 * dx ∧ 0 ≤ ix0 + dx ∧ ix0 + dx < (srcW : Int) := by
  have hWi : (3 : Int) ≤ (srcW : Int) := by exact_mod_cast hW
  simp only [List.mem_cons, List.not_mem_nil, or_false] at hc
  rcases hc with rfl | rfl | rfl | rfl
  · by_cases hlow : ix0 < 1
    · rw [offCol0, if_pos ((repeatOff_neg_iff srcW ix0).mpr hlow)]
      exact ⟨0, by ring, by omega, by omega⟩
    · rw [offCol0, if_neg (fun hcon => hlow ((repeatOff_neg_iff srcW ix0).mp hcon))]
      exact ⟨-1, by ring, by omega, by omega⟩
  · exact ⟨0, by ring, by omega, by omega⟩
  · by_cases htop : 1 ≤ ix0 ∧ (srcW : Int) - 2 < ix0
    · rw [offCol2, if_pos ((repeatOff_gt_one_iff srcW ix0).mpr htop)]
      exact ⟨0, by ring, by omega, by omega⟩
    · rw [offCol2, if_neg (fun hcon => htop ((repeatOff_gt_one_iff srcW ix0).mp hcon))]
      exact ⟨1, by ring, by omega, by omega⟩
  · by_cases hpos : 1 ≤ ix0 ∧ (srcW : Int) - 3 < ix0
    · rw [offCol3, if_pos ((repeatOff_pos_iff srcW ix0).mpr hpos)]
      by_cases htop : 1 ≤ ix0 ∧ (srcW : Int) - 2 < ix0
      · rw [offCol2, if_pos ((repeatOff_gt_one_iff srcW ix0).mpr htop)]
        exact ⟨0, by ring, by omega, by omega⟩
      · rw [offCol2, if_neg (fun hcon => htop ((repeatOff_gt_one_iff srcW ix0).mp hcon))]
        exact ⟨1, by ring, by omega, by omega⟩
    · rw [offCol3, if_neg (fun hcon => hpos ((repeatOff_pos_iff srcW ix0).mp hcon))]
      exact ⟨2, by ring, by omega, by omega⟩

end Resize4

/-- **C5 (amended)** — fast bicubic border handling: when the source bitmap
is at least 3×3 and the destination preserves (or lowers) the aspect ratio
(`destH * srcW ≤ destW * srcH`, in particular the square-to-square resizes
the repo performs), every one of the 64 source-buffer reads of the
`bicubic` loop body lies inside the source buffer `[0, 4 * srcW * srcH)`,
for `scale = destW / srcW` and every destination pixel. -/
theorem bicubic2_reads_in_bounds (srcW srcH destW destH : Nat) (scale : ℚ)
    (hW : 3 ≤ srcW) (hH : 3 ≤ srcH)
    (hscale : scale = (destW : ℚ) / (srcW : ℚ))
    (haspect : destH * srcW ≤ destW * srcH)
    (i j : Nat) (hi : i < destH) (hj : j < destW) :
    ∀ idx ∈ Resize4.bicubicReadIndices srcW srcH scale i j,
      0 ≤ idx ∧ idx < 4 * ((srcW : Int) * (srcH : Int)) := by
  intro idx hidx
  have hdW : 0 < destW := by omega
  have hsW : (0 : ℚ) < (srcW : ℚ) := by exact_mod_cast (by omega : 0 < srcW)
  have hdWq : (0 : ℚ) < (destW : ℚ) := by exact_mod_cast hdW
  have hs : 0 < scale := by rw [hscale]; exact div_pos hdWq hsW
  have hix0a : 0 ≤ Resize4.coord0 scale j :=
    Int.floor_nonneg.2 (div_nonneg (by positivity) hs.le)
  have hiy0a : 0 ≤ Resize4.coord0 scale i :=
    Int.floor_nonneg.2 (div_nonneg (by positivity) hs.le)
  have hix0b : Resize4.coord0 scale j < (srcW : Int) := by
    rw [Resize4.coord0, Int.floor_lt]
    rw [hscale, div_div_eq_mul_div, div_lt_iff₀ hdWq]
    push_cast
    have hjq : (j : ℚ) < (destW : ℚ) := by exact_mod_cast hj
    nlinarith
  have hiy0b : Resize4.coord0 scale i < (srcH : Int) := by
    rw [Resize4.coord0, Int.floor_lt]
    rw [hscale, div_div_eq_mul_div, div_lt_iff₀ hdWq]
    push_cast
    have h1 : i * srcW < destW * srcH := by
      calc i * srcW < destH * srcW :=
        (Nat.mul_lt_mul_right (show 0 < srcW by omega)).mpr hi
      _ ≤ destW * srcH := haspect
    have h2 : ((i : ℚ)) * (srcW : ℚ) < (destW : ℚ) * (srcH : ℚ) := by
      exact_mod_cast h1
    nlinarith
  simp only [Resize4.bicubicReadIndices, List.mem_flatMap, List.mem_map] at hidx
  obtain ⟨r, hr, hrest⟩ := hidx
  obtain ⟨ch, hch, hrest2⟩ := hrest
  obtain ⟨c, hc, hEq0⟩ := hrest2
  subst hEq0
  obtain ⟨yr, hyr0, hyr1, rfl⟩ :=
    Resize4.offRow_bounds srcW srcH _ _ hH hiy0a hiy0b r hr
  obtain ⟨dx, rfl, hdx0, hdx1⟩ :=
    Resize4.offCol_bounds srcW _ hW hix0a hix0b c hc
  have hch' : 0 ≤ ch ∧ ch < 4 := by
    simp only [List.mem_cons, List.not_mem_nil, or_false] at hch
    rcases hch with rfl | rfl | rfl | rfl <;> omega
  have hEq : (yr * srcW + Resize4.coord0 scale j) * 4 + ch + 4 * dx
      = (yr * srcW + (Resize4.coord0 scale j + dx)) * 4 + ch := by ring
  rw [hEq]
  have hWpos : (0 : Int) < (srcW : Int) := by exact_mod_cast (by omega : 0 < srcW)
  constructor
  · have hy : 0 ≤ yr * (srcW : Int) := mul_nonneg hyr0 hWpos.le
    omega
  · have h2 : yr * (srcW : Int) ≤ ((srcH : Int) - 1) * (srcW : Int) :=
      mul_le_mul_of_nonneg_right (by omega) hWpos.le
    have h3 : ((srcH : Int) - 1) * (srcW : Int) = (srcH : Int) * (srcW : Int) - (srcW : Int) := by
      ring
    have h4 : (srcW : Int) * (srcH : Int) = (srcH : Int) * (srcW : Int) := by ring
    omega

/-- Counterexample to C5 as stated: for a 2×2 source resized to a 2×2
destination (`scale = destW / srcW = 1`), the loop body for destination
pixel (0,0) reads index 16, one past the end of the 16-byte source
buffer. -/
theorem bicubic2_oob_counterexample :
    (1 : ℚ) = ((2 : Nat) : ℚ) / ((2 : Nat) : ℚ) ∧
    ∃ idx ∈ Resize4.bicubicReadIndices 2 2 1 0 0,
      ¬(0 ≤ idx ∧ idx < 4 * ((2 : Int) * (2 : Int))) := by
  constructor
  · norm_num
  · refine ⟨16, ?_, by decide⟩
    have hc : Resize4.coord0 1 0 = 0 := by
      rw [Resize4.coord0]
      norm_num
    simp only [Resize4.bicubicReadIndices, hc]
    decide

/-- Witness for the amended C5 at a concrete instance: a 3×3 source scaled
to 6×6, destination pixel (5,5). -/
theorem bicubic2_reads_in_bounds_witness :
    (3 ≤ 3 ∧ (2 : ℚ) = ((6 : Nat) : ℚ) / ((3 : Nat) : ℚ) ∧
      6 * 3 ≤ 6 * 3 ∧ 5 < 6) ∧
    (∀ idx ∈ Resize4.bicubicReadIndices 3 3 2 5 5,
      0 ≤ idx ∧ idx < 4 * ((3 : Int) * (3 : Int))) :=
  ⟨⟨by omega, by norm_num, by omega, by omega⟩,
    bicubic2_reads_in_bounds 3 3 6 6 2 (by omega) (by omega) (by norm_num)
      (by omega) 5 5 (by omega) (by omega)⟩

namespace Png2icons

/-! ## Byte-buffer helpers (Node `Buffer` writes/reads)

`writeUInt32BE`/`LE` model the bytes Node stores; Node throws on values
outside `[0, 2^32)`, so the stored bytes equal the value exactly on that
range (theorems carry the bound as a hypothesis where it matters). -/

def writeUInt16LE (v : Nat) : List Nat := [v % 256, v / 256 % 256]

def writeUInt32LE (v : Nat) : List Nat :=
  [v % 256, v / 2 ^ 8 % 256, v / 2 ^ 16 % 256, v / 2 ^ 24 % 256]

def writeUInt32BE (v : Nat) : List Nat :=
  [v / 2 ^ 24 % 256, v / 2 ^ 16 % 256, v / 2 ^ 8 % 256, v % 256]

def readUInt16LE (l : List Nat) (off : Nat) : Nat :=
  l.getD off 0 + l.getD (off + 1) 0 * 2 ^ 8

def readUInt32LE (l : List Nat) (off : Nat) : Nat :=
  l.getD off 0 + l.getD (off + 1) 0 * 2 ^ 8 +
    l.getD (off + 2) 0 * 2 ^ 16 + l.getD (off + 3) 0 * 2 ^ 24

def readUInt32BE (l : List Nat) (off : Nat) : Nat :=
  l.getD off 0 * 2 ^ 24 + l.getD (off + 1) 0 * 2 ^ 16 +
    l.getD (off + 2) 0 * 2 ^ 8 + l.getD (off + 3) 0

/-- A fresh `Uint8Array`/`Buffer` of length `n` whose content is the byte
list `l` (JS drops out-of-range writes and zero-fills the rest); also
models `Buffer.concat(list, totalLength)` truncation/padding. -/
def fitLen (l : List Nat) (n : Nat) : List Nat :=
  l.take n ++ List.replicate (n - l.length) 0

/-- `Buffer.concat` of a list of buffers. -/
def concatAll (ls : List (List Nat)) : List Nat := ls.foldr (fun a b => a ++ b) []

theorem fitLen_length (l : List Nat) (n : Nat) : (fitLen l n).length = n := by
  simp only [fitLen, List.length_append, List.length_take, List.length_replicate]
  omega

theorem fitLen_eq_self (l : List Nat) (n : Nat) (h : l.length = n) : fitLen l n = l := by
  simp [fitLen, h, List.take_of_length_le (le_of_eq h)]

theorem concatAll_nil : concatAll [] = [] := rfl

theorem concatAll_cons (a : List Nat) (ls : List (List Nat)) :
    concatAll (a :: ls) = a ++ concatAll ls := rfl

theorem concatAll_append (l1 l2 : List (List Nat)) :
    concatAll (l1 ++ l2) = concatAll l1 ++ concatAll l2 := by
  induction l1 with
  | nil => rfl
  | cons a l1 ih => simp [concatAll_cons, ih]

/-- Reading back a 32-bit big-endian field at the position it was written. -/
theorem readUInt32BE_append (pre : List Nat) (v : Nat) (post : List Nat)
    (hv : v < 2 ^ 32) :
    readUInt32BE (pre ++ (writeUInt32BE v ++ post)) pre.length = v := by
  have hget : ∀ k, (pre ++ (writeUInt32BE v ++ post)).getD (pre.length + k) 0
      = (writeUInt32BE v ++ post).getD k 0 := by
    intro k
    rw [List.getD_eq_getElem?_getD, List.getElem?_append_right (by omega),
      List.getD_eq_getElem?_getD]
    congr 1
    congr 1
    omega
  have h0 := hget 0
  rw [Nat.add_zero] at h0
  rw [readUInt32BE, h0, hget 1, hget 2, hget 3]
  simp only [writeUInt32BE, List.cons_append, List.getD_cons_zero, List.getD_cons_succ]
  omega

/-- Reading back a 32-bit little-endian field at the position it was written. -/
theorem readUInt32LE_append (pre : List Nat) (v : Nat) (post : List Nat)
    (hv : v < 2 ^ 32) :
    readUInt32LE (pre ++ (writeUInt32LE v ++ post)) pre.length = v := by
  have hget : ∀ k, (pre ++ (writeUInt32LE v ++ post)).getD (pre.length + k) 0
      = (writeUInt32LE v ++ post).getD k 0 := by
    intro k
    rw [List.getD_eq_getElem?_getD, List.getElem?_append_right (by omega),
      List.getD_eq_getElem?_getD]
    congr 1
    congr 1
    omega
  have h0 := hget 0
  rw [Nat.add_zero] at h0
  rw [readUInt32LE, h0, hget 1, hget 2, hget 3]
  simp only [writeUInt32LE, List.cons_append, List.getD_cons_zero, List.getD_cons_succ]
  omega

end Png2icons

namespace Png2icons

/-! ## External collaborators and the process-wide caches -/

/-- External collaborators consumed by the core (spec §6): the UPNG codec
(`getImageFromPNG`'s decode+toRGBA8, which returns `none` on a caught
decode error, and `UPNG.encode`, whose exceptions are modelled by `none`)
and the resampling kernels of resize3.js/resize4.js.  `resample alg src w
h` stands for the final content the kernel selected by `alg` leaves in the
caller-allocated `w*h*4` destination buffer. -/
structure Ext where
  upngDecode : List Nat → Option Image
  upngEncode : List Nat → Int → Int → Int → Option (List Nat)
  resample : Int → Image → Int → Int → List Nat

/-- An already PNG-encoded image (`IPNGImage` in the source). -/
structure IPNGImage where
  Data : List Nat
  Width : Int
  Height : Int
deriving DecidableEq, Repr

/-- The module-level mutable state: `scaledImageCache`,
`scaledPNGImageCache` and `currentImage`. -/
structure CState where
  scaledImageCache : List Image
  scaledPNGImageCache : List IPNGImage
  currentImage : Option (List Nat)
deriving DecidableEq, Repr

/-- The algorithm number actually dispatched by `getScaledImageData`
(unknown numbers fall through to the final `else`, bicubic = 2). -/
def normAlg (alg : Int) : Int :=
  if alg = 0 ∨ alg = 1 ∨ alg = 2 ∨ alg = 3 ∨ alg = 4 ∨ alg = 5 then alg else 2

/-- `getScaledImageData` from `src/png2icons.ts`: identity when the sizes
already match, then cache lookup keyed by width/height only, then
resampling into a fresh `Width*Height*4` buffer which is pushed onto the
cache. -/
def getScaledImageData (ext : Ext) (srcImage : Image) (destRect : IRect)
    (scalingAlgorithm : Int) (σ : CState) : List Nat × CState :=
  if (srcImage.width : Int) = destRect.Width ∧ (srcImage.height : Int) = destRect.Height then
    (srcImage.data, σ)
  else
    match σ.scaledImageCache.find? (fun image =>
        destRect.Width == (image.width : Int) && destRect.Height == (image.height : Int)) with
    | some image => (image.data, σ)
    | none =>
      let scaleResult : Image :=
        { data := fitLen (ext.resample (normAlg scalingAlgorithm) srcImage
            destRect.Width destRect.Height) (destRect.Width * destRect.Height * 4).toNat,
          height := destRect.Height.toNat,
          width := destRect.Width.toNat }
      (scaleResult.data, { σ with scaledImageCache := σ.scaledImageCache ++ [scaleResult] })

/-- `getCachedPNG` from `src/png2icons.ts`: lookup keyed by width/height
only; on a miss encode (which may raise, = `none`) and push on success. -/
def getCachedPNG (ext : Ext) (rgba : List Nat) (width height : Int)
    (numOfColors : Int) (σ : CState) : Option (List Nat) × CState :=
  match σ.scaledPNGImageCache.find? (fun image =>
      image.Width == width && image.Height == height) with
  | some image => (some image.Data, σ)
  | none =>
    match ext.upngEncode rgba width height numOfColors with
    | some result =>
      (some result, { σ with scaledPNGImageCache :=
        σ.scaledPNGImageCache ++ [{ Data := result, Width := width, Height := height }] })
    | none => (none, σ)

/-- `checkCache` from `src/png2icons.ts` (a `Buffer` argument is always
truthy, so the `!image` early return never fires; the content comparison
`image.compare(currentImage)` is list equality). -/
def checkCache (image : List Nat) (σ : CState) : CState :=
  match σ.currentImage with
  | none => { σ with currentImage := some image }
  | some current =>
    if image = current then σ
    else { scaledImageCache := [], scaledPNGImageCache := [], currentImage := some image }

/-- `clearCache` from `src/png2icons.ts`. -/
def clearCache : CState :=
  { scaledImageCache := [], scaledPNGImageCache := [], currentImage := none }

/-- `getImageChannel` from `src/png2icons.ts`: every 4th byte starting at
`channelIndex`, written into a fresh buffer of `image.length / bpp` bytes
(the loop steps by 4 regardless of `bpp`). -/
def getImageChannel (image : List Nat) (bpp : Nat) (channelIndex : Nat) : List Nat :=
  fitLen ((List.range ((image.length - channelIndex + 3) / 4)).map
    (fun k => image.getD (channelIndex + 4 * k) 0)) (image.length / bpp)

/-- Clamp of `numOfColors` (`(numOfColors < 0) ? 0 : ((numOfColors >
MAX_COLORS) ? MAX_COLORS : numOfColors)`). -/
def clampColors (n : Int) : Int := if n < 0 then 0 else if n > 256 then 256 else n

end Png2icons

namespace Png2icons

/-! ## Apple ICNS assembler -/

/-- Icon (compression) format (`enum IconFormat`). -/
inductive IconFormat where
  | PNG
  | PackBitsARGB
  | PackBitsRGB
  | Alpha
deriving DecidableEq, Repr

/-- Data for one icon chunk (`IICNSChunkParams`; the `Info` logging string
is omitted, it only feeds the injected logger).  `OSType` holds the four
ASCII bytes `iconHeader.write(chunkParams.OSType, 0)` stores. -/
structure IICNSChunkParams where
  OSType : List Nat
  Format : IconFormat
  Size : Nat
deriving DecidableEq, Repr

/-- `encodeIconWithPackBits` from `src/png2icons.ts`: PackBits-compressed
channels, `"ARGB"` header (bytes 65,82,71,66) plus alpha first when
requested. -/
def encodeIconWithPackBits (image : List Nat) (withAlphaChannel : Bool) : List Nat :=
  let R := PackBits.encode (getImageChannel image 4 0)
  let G := PackBits.encode (getImageChannel image 4 1)
  let B := PackBits.encode (getImageChannel image 4 2)
  if withAlphaChannel then
    [65, 82, 71, 66] ++ PackBits.encode (getImageChannel image 4 3) ++ R ++ G ++ B
  else
    R ++ G ++ B

/-- Serialized ICNS chunk: 4-byte type tag, big-endian `payload + 8`
length (the 8-byte header counts itself), payload. -/
def icnsChunkBytes (tag payload : List Nat) : List Nat :=
  tag ++ (writeUInt32BE (payload.length + 8) ++ payload)

/-- `appendIcnsChunk` from `src/png2icons.ts`.  The `try`/`catch` is
modelled by the `Option` result: the only fallible step with the closed
`IconFormat` type is PNG encoding (the `default: throw` branch is
unreachable).  State changes made before a failure persist, as the JS
caches do. -/
def appendIcnsChunk (ext : Ext) (chunkParams : IICNSChunkParams) (srcImage : Image)
    (scalingAlgorithm : Int) (numOfColors : Int) (outBuffer : List Nat)
    (σ : CState) : Option (List Nat) × CState :=
  let icnsChunkRect := getStretchedRect
    (getRect 0 0 srcImage.width srcImage.height)
    (getRect 0 0 chunkParams.Size chunkParams.Size)
  let sres := getScaledImageData ext srcImage icnsChunkRect scalingAlgorithm σ
  match chunkParams.Format with
  | IconFormat.PNG =>
    let pres := getCachedPNG ext sres.1 icnsChunkRect.Width icnsChunkRect.Height
      numOfColors sres.2
    match pres.1 with
    | none => (none, pres.2)
    | some encodedIcon =>
      (some (outBuffer ++ icnsChunkBytes chunkParams.OSType encodedIcon), pres.2)
  | IconFormat.PackBitsARGB =>
    (some (outBuffer ++ icnsChunkBytes chunkParams.OSType
      (encodeIconWithPackBits sres.1 true)), sres.2)
  | IconFormat.PackBitsRGB =>
    (some (outBuffer ++ icnsChunkBytes chunkParams.OSType
      (encodeIconWithPackBits sres.1 false)), sres.2)
  | IconFormat.Alpha =>
    (some (outBuffer ++ icnsChunkBytes chunkParams.OSType
      (getImageChannel sres.1 4 3)), sres.2)

/-- The fixed, order-sensitive ICNS chunk table of `createICNS` (OSType
tags as their ASCII bytes). -/
def icnsChunks : List IICNSChunkParams :=
  [ { OSType := [105, 99, 49, 50], Format := IconFormat.PNG, Size := 64 },    -- ic12
    { OSType := [105, 99, 48, 55], Format := IconFormat.PNG, Size := 128 },   -- ic07
    { OSType := [105, 99, 49, 51], Format := IconFormat.PNG, Size := 256 },   -- ic13
    { OSType := [105, 99, 48, 56], Format := IconFormat.PNG, Size := 256 },   -- ic08
    { OSType := [105, 99, 49, 52], Format := IconFormat.PNG, Size := 512 },   -- ic14
    { OSType := [105, 99, 48, 57], Format := IconFormat.PNG, Size := 512 },   -- ic09
    { OSType := [105, 99, 49, 48], Format := IconFormat.PNG, Size := 1024 },  -- ic10
    { OSType := [105, 99, 49, 49], Format := IconFormat.PNG, Size := 32 },    -- ic11
    { OSType := [105, 108, 51, 50], Format := IconFormat.PackBitsRGB, Size := 32 },  -- il32
    { OSType := [108, 56, 109, 107], Format := IconFormat.Alpha, Size := 32 },       -- l8mk
    { OSType := [105, 115, 51, 50], Format := IconFormat.PackBitsRGB, Size := 16 },  -- is32
    { OSType := [115, 56, 109, 107], Format := IconFormat.Alpha, Size := 16 } ]      -- s8mk

/-- The chunk-appending loop of `createICNS` (the `for` over
`icnsChunks`); a `null` from `appendIcnsChunk` aborts it. -/
def icnsLoop (ext : Ext) (srcImage : Image) (scalingAlgorithm nOfColors : Int) :
    List IICNSChunkParams → List Nat → CState → Option (List Nat) × CState
  | [], buf, σ => (some buf, σ)
  | c :: rest, buf, σ =>
    let r := appendIcnsChunk ext c srcImage scalingAlgorithm nOfColors buf σ
    match r.1 with
    | none => (none, r.2)
    | some buf2 => icnsLoop ext srcImage scalingAlgorithm nOfColors rest buf2 r.2

/-- The initial ICNS output buffer: `Buffer.alloc(8, 0)` with `"icns"`
written at offset 0. -/
def icnsHeader0 : List Nat := [105, 99, 110, 115, 0, 0, 0, 0]

/-- `createICNS` from `src/png2icons.ts`.  `none` covers both the `null`
returns of the source and an uncaught exception; the total file length is
patched at offset 4 after all chunks are appended. -/
def createICNS (ext : Ext) (input : List Nat) (scalingAlgorithm numOfColors : Int)
    (σ : CState) : Option (List Nat) × CState :=
  let σ0 := checkCache input σ
  match ext.upngDecode input with
  | none => (none, σ0)
  | some inputImage =>
    let srcImage := getQuadraticImage inputImage
    let r := icnsLoop ext srcImage scalingAlgorithm (clampColors numOfColors)
      icnsChunks icnsHeader0 σ0
    match r.1 with
    | none => (none, r.2)
    | some outBuffer =>
      (some (outBuffer.take 4 ++ (writeUInt32BE outBuffer.length ++ outBuffer.drop 8)), r.2)

end Png2icons

namespace Png2icons

/-! ## Microsoft ICO assembler -/

/-- All chunk sizes of `createICO`. -/
def icoChunkSizes : List Nat := [256, 128, 96, 72, 64, 48, 32, 24, 16]

/-- `getICONDIR`. -/
def getICONDIR (numOfImages : Nat) : List Nat :=
  writeUInt16LE 0 ++ writeUInt16LE 1 ++ writeUInt16LE numOfImages

/-- `getICONDIRENTRY` (16 bytes; width/height bytes are 0 for ≥ 256). -/
def getICONDIRENTRY (imageSize width height offset : Nat) : List Nat :=
  [(if 256 ≤ width then 0 else width) % 256,
   (if 256 ≤ height then 0 else height) % 256,
   0, 0] ++ writeUInt16LE 1 ++ writeUInt16LE 32 ++
    writeUInt32LE imageSize ++ writeUInt32LE offset

/-- `getMaskSize`: bytes of the 1-bit alpha mask with rows padded to a
32-bit boundary. -/
def getMaskSize (bitmapWidth bitmapHeight : Nat) : Nat :=
  (bitmapWidth + (if bitmapWidth % 32 ≠ 0 then 32 - bitmapWidth % 32 else 0))
    * bitmapHeight / 8

/-- `getBITMAPINFOHEADER` (40 bytes; all stored fields here are
nonnegative, so `writeInt32LE` stores the same bytes as `writeUInt32LE`). -/
def getBITMAPINFOHEADER (image : Image) : List Nat :=
  writeUInt32LE 40 ++ writeUInt32LE image.width ++ writeUInt32LE (image.height * 2) ++
    writeUInt16LE 1 ++ writeUInt16LE 32 ++ writeUInt32LE 0 ++
    writeUInt32LE (image.data.length + getMaskSize image.width image.height) ++
    writeUInt32LE 3780 ++ writeUInt32LE 3780 ++ writeUInt32LE 0 ++ writeUInt32LE 0

/-- `getDIB`: bottom-up BGRA rewrite of the pixels plus the packed 1-bit
alpha mask.  The two nested loops write into a fresh buffer of
`image.data.length` bytes (`DIB`) while pushing mask bits (`maskBits`),
padding them to a 32-bit boundary after each row; the mask bytes are
packed 8 bits at a time, most significant first, and concatenated to
`getMaskSize` bytes. -/
def getDIB (image : Image) : List Nat :=
  let bitmap := image.data
  let columns := image.width * 4
  let rows := image.height * columns
  let endPos := rows - columns
  let st := (List.range image.height).foldl (fun (st : List Nat × List Nat) r =>
    let row := r * columns
    let st2 := (List.range image.width).foldl (fun (st2 : List Nat × List Nat) colPix =>
      let pos := row + colPix * 4
      let rv := bitmap.getD pos 0
      let g := bitmap.getD (pos + 1) 0
      let b := bitmap.getD (pos + 2) 0
      let a := bitmap.getD (pos + 3) 0
      let pos2 := (endPos - row) + colPix * 4
      ((((st2.1.set pos2 b).set (pos2 + 1) g).set (pos2 + 2) rv).set (pos2 + 3) a,
        st2.2 ++ [if bitmap.getD (pos2 + 3) 0 = 0 then 1 else 0])) st
    (st2.1, st2.2 ++ List.replicate
      (if st2.2.length % 32 ≠ 0 then 32 - st2.2.length % 32 else 0) 0))
    (List.replicate image.data.length 0, [])
  st.1 ++ fitLen ((List.range (st.2.length / 8)).map (fun k =>
    ((st.2.drop (8 * k)).take 8).foldl (fun acc bit => acc * 2 + bit) 0))
    (getMaskSize image.width image.height)

/-- The PNG-or-BMP selection of the ICO loop:
`PNG || (forWinExe && ([256, 128, 96, 72, 64].indexOf(icoChunkRect.Height) !== -1))`. -/
def icoUsesPNG (PNG forWinExe : Bool) (rectHeight : Int) : Prop :=
  PNG = true ∨ (forWinExe = true ∧ rectHeight ∈ ([256, 128, 96, 72, 64] : List Int))

instance (PNG forWinExe : Bool) (rectHeight : Int) :
    Decidable (icoUsesPNG PNG forWinExe rectHeight) := by
  unfold icoUsesPNG
  infer_instance

/-- Loop state of `createICO`: the directory buffers, the payload
buffers, the running total length, and the next chunk offset. -/
structure IcoAcc where
  dir : List (List Nat)
  imgs : List (List Nat)
  total : Nat
  offset : Nat
deriving DecidableEq, Repr

/-- One iteration of the `for (const icoChunkSize of icoChunkSizes)` loop
of `createICO`. -/
def icoStep (ext : Ext) (srcImage : Image) (scalingAlgorithm numOfColors : Int)
    (PNG forWinExe : Bool) (icoChunkSize : Nat) (acc : IcoAcc) (σ : CState) :
    Option IcoAcc × CState :=
  let icoChunkRect := getStretchedRect
    (getRect 0 0 srcImage.width srcImage.height)
    (getRect 0 0 icoChunkSize icoChunkSize)
  let sres := getScaledImageData ext srcImage icoChunkRect scalingAlgorithm σ
  let scaledRawImage : Image :=
    { data := sres.1, height := icoChunkRect.Height.toNat, width := icoChunkRect.Width.toNat }
  if icoUsesPNG PNG forWinExe icoChunkRect.Height then
    let pres := getCachedPNG ext scaledRawImage.data (scaledRawImage.width : Int)
      (scaledRawImage.height : Int) (clampColors numOfColors) sres.2
    match pres.1 with
    | none => (none, pres.2)
    | some encodedIcon =>
      (some { dir := acc.dir ++ [getICONDIRENTRY encodedIcon.length
                scaledRawImage.width scaledRawImage.height acc.offset],
              imgs := acc.imgs ++ [encodedIcon],
              total := acc.total + 16 + encodedIcon.length,
              offset := acc.offset + encodedIcon.length }, pres.2)
  else
    let bmpInfoHeader := getBITMAPINFOHEADER scaledRawImage
    let DIB := getDIB scaledRawImage
    (some { dir := acc.dir ++ [getICONDIRENTRY
              (scaledRawImage.data.length
                + getMaskSize scaledRawImage.width scaledRawImage.height + 40)
              scaledRawImage.width scaledRawImage.height acc.offset],
            imgs := acc.imgs ++ [bmpInfoHeader, DIB],
            total := acc.total + 16 + bmpInfoHeader.length + DIB.length,
            offset := acc.offset + bmpInfoHeader.length + DIB.length }, sres.2)

/-- The chunk loop of `createICO`. -/
def icoLoop (ext : Ext) (srcImage : Image) (scalingAlgorithm numOfColors : Int)
    (PNG forWinExe : Bool) :
    List Nat → IcoAcc → CState → Option IcoAcc × CState
  | [], acc, σ => (some acc, σ)
  | sz :: rest, acc, σ =>
    let r := icoStep ext srcImage scalingAlgorithm numOfColors PNG forWinExe sz acc σ
    match r.1 with
    | none => (none, r.2)
    | some acc2 => icoLoop ext srcImage scalingAlgorithm numOfColors PNG forWinExe rest acc2 r.2

/-- `createICO` from `src/png2icons.ts` (`none` covers the `null` return
on decode failure and a propagated `UPNG.encode` exception). -/
def createICO (ext : Ext) (input : List Nat) (scalingAlgorithm numOfColors : Int)
    (PNG forWinExe : Bool) (σ : CState) : Option (List Nat) × CState :=
  let σ0 := checkCache input σ
  match ext.upngDecode input with
  | none => (none, σ0)
  | some inputImage =>
    let srcImage := getQuadraticImage inputImage
    let acc0 : IcoAcc :=
      { dir := [getICONDIR icoChunkSizes.length], imgs := [],
        total := 6, offset := 6 + icoChunkSizes.length * 16 }
    let r := icoLoop ext srcImage scalingAlgorithm numOfColors PNG forWinExe
      icoChunkSizes acc0 σ0
    match r.1 with
    | none => (none, r.2)
    | some acc => (some (fitLen (concatAll (acc.dir ++ acc.imgs)) acc.total), r.2)

end Png2icons

/-- **C2** — ICO format selection with `forWinExe`: the code's selection
predicate (`PNG || (forWinExe && height ∈ {256,128,96,72,64})`) chooses
PNG for the 16-pixel entry whenever the `PNG` flag is set, and BMP for it
only when the `PNG` flag is false — so with `forWinExe = true` the `PNG`
flag is *not* ignored and sub-64 entries are *not* forced to BMP, contrary
to the claim and to `createICO`'s own documentation. -/
theorem icoUsesPNG_forWinExe_bug :
    Png2icons.icoUsesPNG true true 16 ∧ ¬ Png2icons.icoUsesPNG false true 16 := by
  constructor
  · exact Or.inl rfl
  · intro h
    rcases h with h | h
    · exact absurd h (by decide)
    · revert h
      decide

namespace Png2icons

/-- On the square sources the pipeline always produces (`getQuadraticImage`),
fitting into a square target is the identity target rect. -/
theorem getStretchedRect_square (E size : Nat) (hE : 1 ≤ E) :
    getStretchedRect (getRect 0 0 E E) (getRect 0 0 size size)
      = getRect 0 0 size size := by
  have hEq : (((E : Nat) : Int) : ℚ) ≠ 0 := by
    have : ((E : Nat) : Int) ≠ 0 := by exact_mod_cast (by omega : (E : Nat) ≠ 0)
    exact_mod_cast this
  have hcond : (((E : Nat) : Int) : ℚ) / (((E : Nat) : Int) : ℚ)
      ≥ (((size : Nat) : Int) : ℚ) / (((size : Nat) : Int) : ℚ) := by
    rw [div_self hEq]
    rcases Nat.eq_zero_or_pos size with h | h
    · subst h
      norm_num
    · rw [div_self (by
        have : ((size : Nat) : Int) ≠ 0 := by exact_mod_cast (by omega : (size : Nat) ≠ 0)
        exact_mod_cast this)]
  simp only [getStretchedRect, getRect]
  rw [if_pos hcond]
  have htmp : (((E : Nat) : Int) : ℚ) * ((((size : Nat) : Int) : ℚ) / (((E : Nat) : Int) : ℚ))
      = (((size : Nat) : Int) : ℚ) := by
    rw [mul_comm, div_mul_cancel₀ _ hEq]
  rw [htmp]
  have hfloor : ⌊(((size : Nat) : Int) : ℚ)⌋ = ((size : Nat) : Int) := Int.floor_intCast _
  rw [hfloor]
  simp

/-- `getQuadraticImage` always yields a square image of edge
`max height width`. -/
theorem getQuadraticImage_square (im : Image) :
    (getQuadraticImage im).width = max im.height im.width ∧
    (getQuadraticImage im).height = max im.height im.width := by
  by_cases h : im.height = im.width
  · rw [getQuadraticImage, if_pos h]
    constructor
    · rw [h, max_self]
    · rw [h, max_self]
  · exact ⟨(getQuadraticImage_char im h).1, (getQuadraticImage_char im h).2.1⟩

/-- Size bound for the (square) source image entering the assemblers. -/
theorem getQuadraticImage_data_le (im : Image) (hd : im.data.length ≤ 2 ^ 24)
    (hw : im.width ≤ 2 ^ 10) (hh : im.height ≤ 2 ^ 10) :
    (getQuadraticImage im).data.length ≤ 2 ^ 24 := by
  by_cases h : im.height = im.width
  · rw [getQuadraticImage, if_pos h]
    exact hd
  · have := (getQuadraticImage_char im h).2.2.1
    rw [this]
    have hmax : max im.height im.width ≤ 2 ^ 10 := by
      rw [max_le_iff]
      exact ⟨hh, hw⟩
    calc max im.height im.width * max im.height im.width * 4
        ≤ 2 ^ 10 * 2 ^ 10 * 4 := by
          exact Nat.mul_le_mul_right 4 (Nat.mul_le_mul hmax hmax)
    _ ≤ 2 ^ 24 := by norm_num

end Png2icons

namespace Png2icons

@[simp] theorem getRect_Left (l t w h : Int) : (getRect l t w h).Left = l := rfl

@[simp] theorem getRect_Top (l t w h : Int) : (getRect l t w h).Top = t := rfl

@[simp] theorem getRect_Width (l t w h : Int) : (getRect l t w h).Width = w := rfl

@[simp] theorem getRect_Height (l t w h : Int) : (getRect l t w h).Height = h := rfl

/-- One loop unfolding of `icnsLoop` for a successful chunk. -/
theorem icnsLoop_cons_some (ext : Ext) (img : Image) (alg n : Int)
    (c : IICNSChunkParams) (rest : List IICNSChunkParams) (buf : List Nat)
    (σ : CState) (out : List Nat) (σ1 : CState)
    (h1 : appendIcnsChunk ext c img alg n buf σ = (some out, σ1)) :
    icnsLoop ext img alg n (c :: rest) buf σ = icnsLoop ext img alg n rest out σ1 := by
  simp only [icnsLoop, h1]

/-- One loop unfolding of `icnsLoop` for a failing chunk. -/
theorem icnsLoop_cons_none (ext : Ext) (img : Image) (alg n : Int)
    (c : IICNSChunkParams) (rest : List IICNSChunkParams) (buf : List Nat)
    (σ : CState) (σ1 : CState)
    (h1 : (appendIcnsChunk ext c img alg n buf σ).1 = none) :
    icnsLoop ext img alg n (c :: rest) buf σ
      = (none, (appendIcnsChunk ext c img alg n buf σ).2) := by
  simp only [icnsLoop, h1]

end Png2icons

/-- **C9** — any per-chunk failure aborts `createICNS`: if the chunk loop
reaches a chunk whose construction fails, the loop returns `none` (no
partial buffer), and a `none` from the loop makes `createICNS` itself
return `none`. -/
theorem createICNS_chunk_failure_aborts :
    (∀ (ext : Png2icons.Ext) (srcImage : Png2icons.Image) (alg n : Int)
      (pre : List Png2icons.IICNSChunkParams) (c : Png2icons.IICNSChunkParams)
      (post : List Png2icons.IICNSChunkParams) (buf : List Nat)
      (σ : Png2icons.CState) (buf1 : List Nat) (σ1 : Png2icons.CState),
      Png2icons.icnsLoop ext srcImage alg n pre buf σ = (some buf1, σ1) →
      (Png2icons.appendIcnsChunk ext c srcImage alg n buf1 σ1).1 = none →
      (Png2icons.icnsLoop ext srcImage alg n (pre ++ c :: post) buf σ).1 = none) ∧
    (∀ (ext : Png2icons.Ext) (input : List Nat) (alg n : Int) (σ : Png2icons.CState)
      (im : Png2icons.Image),
      ext.upngDecode input = some im →
      (Png2icons.icnsLoop ext (Png2icons.getQuadraticImage im) alg
        (Png2icons.clampColors n) Png2icons.icnsChunks Png2icons.icnsHeader0
        (Png2icons.checkCache input σ)).1 = none →
      (Png2icons.createICNS ext input alg n σ).1 = none) := by
  constructor
  · intro ext srcImage alg n pre
    induction pre with
    | nil =>
      intro c post buf σ buf1 σ1 hpre hfail
      simp only [Png2icons.icnsLoop] at hpre
      have h1 : some buf = some buf1 := congrArg Prod.fst hpre
      have h2 : σ = σ1 := congrArg Prod.snd hpre
      injection h1 with h1
      subst h1
      subst h2
      rw [List.nil_append,
        Png2icons.icnsLoop_cons_none ext srcImage alg n c post buf σ σ hfail]
    | cons p ps ih =>
      intro c post buf σ buf1 σ1 hpre hfail
      rcases hr : Png2icons.appendIcnsChunk ext p srcImage alg n buf σ with ⟨o, σa⟩
      cases o with
      | none =>
        simp only [Png2icons.icnsLoop, hr] at hpre
        have := congrArg Prod.fst hpre
        simp at this
      | some buf2 =>
        simp only [Png2icons.icnsLoop, hr] at hpre
        have hrw : Png2icons.icnsLoop ext srcImage alg n ((p :: ps) ++ c :: post) buf σ
            = Png2icons.icnsLoop ext srcImage alg n (ps ++ c :: post) buf2 σa := by
          rw [List.cons_append]
          exact Png2icons.icnsLoop_cons_some ext srcImage alg n p _ buf σ buf2 σa hr
        rw [hrw]
        exact ih c post buf2 σa buf1 σ1 hpre hfail
  · intro ext input alg n σ im hdec hloop
    simp only [Png2icons.createICNS, hdec]
    rcases hr : Png2icons.icnsLoop ext (Png2icons.getQuadraticImage im) alg
        (Png2icons.clampColors n) Png2icons.icnsChunks Png2icons.icnsHeader0
        (Png2icons.checkCache input σ) with ⟨o, σ2⟩
    rw [hr] at hloop
    simp only at hloop
    subst hloop
    rfl

namespace Png2icons

/-- `getScaledImageData` never touches the PNG cache. -/
theorem getScaledImageData_pngCache (ext : Ext) (img : Image) (rect : IRect)
    (alg : Int) (σ : CState) :
    (getScaledImageData ext img rect alg σ).2.scaledPNGImageCache
      = σ.scaledPNGImageCache := by
  unfold getScaledImageData
  split
  · rfl
  · split <;> rfl

/-- A PNG-format chunk fails whenever the PNG cache is empty and the
encoder throws (returns `none`). -/
theorem appendIcnsChunk_png_fail (ext : Ext)
    (hene : ∀ d w h n, ext.upngEncode d w h n = none)
    (c : IICNSChunkParams) (hc : c.Format = IconFormat.PNG)
    (img : Image) (alg n : Int) (buf : List Nat) (σ : CState)
    (hσ : σ.scaledPNGImageCache = []) :
    (appendIcnsChunk ext c img alg n buf σ).1 = none := by
  have hpng : (getScaledImageData ext img
      (getStretchedRect (getRect 0 0 img.width img.height)
        (getRect 0 0 c.Size c.Size)) alg σ).2.scaledPNGImageCache = [] := by
    rw [getScaledImageData_pngCache, hσ]
  simp only [appendIcnsChunk, hc, getCachedPNG, hpng, List.find?_nil, hene]

/-- A collaborator pack whose PNG encoder always throws. -/
def icnsFailExt : Ext :=
  { upngDecode := fun _ => some { data := [], width := 1, height := 1 },
    upngEncode := fun _ _ _ _ => none,
    resample := fun _ _ _ _ => [] }

end Png2icons

theorem createICNS_chunk_failure_aborts_witness :
    (Png2icons.icnsLoop Png2icons.icnsFailExt ⟨[], 1, 1⟩ 2 256
        ([] ++ (⟨[105, 99, 49, 50], Png2icons.IconFormat.PNG, 64⟩ :
          Png2icons.IICNSChunkParams) :: []) [] Png2icons.clearCache).1 = none ∧
    (Png2icons.createICNS Png2icons.icnsFailExt [0] 2 256 Png2icons.clearCache).1
      = none := by
  have hloop0 : (Png2icons.icnsLoop Png2icons.icnsFailExt
      (Png2icons.getQuadraticImage ⟨[], 1, 1⟩) 2 (Png2icons.clampColors 256)
      Png2icons.icnsChunks Png2icons.icnsHeader0
      (Png2icons.checkCache [0] Png2icons.clearCache)).1 = none := by
    show (Png2icons.icnsLoop Png2icons.icnsFailExt
      (Png2icons.getQuadraticImage ⟨[], 1, 1⟩) 2 (Png2icons.clampColors 256)
      ((⟨[105, 99, 49, 50], Png2icons.IconFormat.PNG, 64⟩ :
        Png2icons.IICNSChunkParams) :: Png2icons.icnsChunks.tail)
      Png2icons.icnsHeader0
      (Png2icons.checkCache [0] Png2icons.clearCache)).1 = none
    rw [Png2icons.icnsLoop_cons_none _ _ _ _ _ _ _ _ Png2icons.clearCache
      (Png2icons.appendIcnsChunk_png_fail _ (fun _ _ _ _ => rfl) _ rfl _ _ _ _ _ rfl)]
  constructor
  · exact createICNS_chunk_failure_aborts.1 Png2icons.icnsFailExt ⟨[], 1, 1⟩ 2 256
      [] _ [] [] Png2icons.clearCache [] Png2icons.clearCache rfl
      (Png2icons.appendIcnsChunk_png_fail _ (fun _ _ _ _ => rfl) _ rfl _ _ _ _ _ rfl)
  · exact createICNS_chunk_failure_aborts.2 Png2icons.icnsFailExt [0] 2 256
      Png2icons.clearCache ⟨[], 1, 1⟩ rfl hloop0

namespace Png2icons

/-! ## Cache stability (C10): both caches grow append-only and are looked
up by (width, height) alone, so a second run finds every entry the first
run created. -/

/-- `σ2` extends `σ1`: both caches of `σ1` are prefixes of those of `σ2`
and the remembered input is the same. -/
def cacheExtends (σ1 σ2 : CState) : Prop :=
  (∃ Δ, σ2.scaledImageCache = σ1.scaledImageCache ++ Δ) ∧
  (∃ Δ, σ2.scaledPNGImageCache = σ1.scaledPNGImageCache ++ Δ) ∧
  σ2.currentImage = σ1.currentImage

theorem cacheExtends_refl (σ : CState) : cacheExtends σ σ :=
  ⟨⟨[], by simp⟩, ⟨[], by simp⟩, rfl⟩

theorem cacheExtends_trans {σ1 σ2 σ3 : CState}
    (h1 : cacheExtends σ1 σ2) (h2 : cacheExtends σ2 σ3) : cacheExtends σ1 σ3 := by
  obtain ⟨⟨d1, e1⟩, ⟨p1, f1⟩, c1⟩ := h1
  obtain ⟨⟨d2, e2⟩, ⟨p2, f2⟩, c2⟩ := h2
  exact ⟨⟨d1 ++ d2, by rw [e2, e1, List.append_assoc]⟩,
    ⟨p1 ++ p2, by rw [f2, f1, List.append_assoc]⟩, by rw [c2, c1]⟩

theorem find?_cons_pos {α : Type} (p : α → Bool) (a : α) (l : List α)
    (h : p a = true) : (a :: l).find? p = some a := by
  simp [List.find?, h]

theorem find?_append_some {α : Type} (p : α → Bool) (l1 l2 : List α) (x : α)
    (h : l1.find? p = some x) : (l1 ++ l2).find? p = some x := by
  induction l1 with
  | nil => simp [List.find?] at h
  | cons a t ih =>
    cases hpa : p a with
    | true =>
      simp only [List.find?, hpa] at h
      simp only [List.cons_append, List.find?, hpa]
      exact h
    | false =>
      simp only [List.find?, hpa] at h
      simp only [List.cons_append, List.find?, hpa]
      exact ih h

theorem find?_append_none {α : Type} (p : α → Bool) (l1 l2 : List α)
    (h : l1.find? p = none) : (l1 ++ l2).find? p = l2.find? p := by
  induction l1 with
  | nil => simp
  | cons a t ih =>
    cases hpa : p a with
    | true =>
      simp only [List.find?, hpa] at h
      exact Option.noConfusion h
    | false =>
      simp only [List.find?, hpa] at h
      simp only [List.cons_append, List.find?, hpa]
      exact ih h

end Png2icons

namespace Png2icons

/-- Both dimensions produced by `getStretchedRect` are nonnegative when
the two input rectangles have nonnegative dimensions. -/
theorem getStretchedRect_nonneg (src dst : IRect)
    (h1 : 0 ≤ src.Width) (h2 : 0 ≤ src.Height)
    (h3 : 0 ≤ dst.Width) (h4 : 0 ≤ dst.Height) :
    0 ≤ (getStretchedRect src dst).Width ∧ 0 ≤ (getStretchedRect src dst).Height := by
  have ha : (0 : ℚ) ≤ (src.Width : ℚ) := by exact_mod_cast h1
  have hb : (0 : ℚ) ≤ (src.Height : ℚ) := by exact_mod_cast h2
  have hc : (0 : ℚ) ≤ (dst.Width : ℚ) := by exact_mod_cast h3
  have hd : (0 : ℚ) ≤ (dst.Height : ℚ) := by exact_mod_cast h4
  rw [getStretchedRect_formula]
  split
  · refine ⟨h3, ?_⟩
    show (0 : Int) ≤ ⌊(src.Height : ℚ) * dst.Width / src.Width⌋
    exact Int.le_floor.mpr (by push_cast; exact div_nonneg (mul_nonneg hb hc) ha)
  · refine ⟨?_, h4⟩
    show (0 : Int) ≤ ⌊(src.Width : ℚ) * dst.Height / src.Height⌋
    exact Int.le_floor.mpr (by push_cast; exact div_nonneg (mul_nonneg ha hd) hb)

/-- `getScaledImageData` only appends to the scaled-image cache. -/
theorem getScaledImageData_extends (ext : Ext) (img : Image) (rect : IRect)
    (alg : Int) (σ : CState) :
    cacheExtends σ (getScaledImageData ext img rect alg σ).2 := by
  simp only [getScaledImageData]
  split
  · exact cacheExtends_refl σ
  · split
    · exact cacheExtends_refl σ
    · exact ⟨⟨_, rfl⟩, ⟨[], by simp⟩, rfl⟩

/-- `getCachedPNG` only appends to the PNG cache. -/
theorem getCachedPNG_extends (ext : Ext) (rgba : List Nat) (w h n : Int)
    (σ : CState) : cacheExtends σ (getCachedPNG ext rgba w h n σ).2 := by
  simp only [getCachedPNG]
  split
  · exact cacheExtends_refl σ
  · split
    · exact ⟨⟨[], by simp⟩, ⟨_, rfl⟩, rfl⟩
    · exact cacheExtends_refl σ

end Png2icons

namespace Png2icons

/-- Re-running `getScaledImageData` with *any* algorithm on a state that
extends the first run's result state returns the same bytes and leaves
the state unchanged (the lookup key ignores the algorithm). -/
theorem getScaledImageData_stable (ext : Ext) (img : Image) (rect : IRect)
    (alg1 alg2 : Int) (σ σ1 σ2 : CState) (d : List Nat)
    (hW : 0 ≤ rect.Width) (hH : 0 ≤ rect.Height)
    (h1 : getScaledImageData ext img rect alg1 σ = (d, σ1))
    (hext : cacheExtends σ1 σ2) :
    getScaledImageData ext img rect alg2 σ2 = (d, σ2) := by
  simp only [getScaledImageData] at h1 ⊢
  split at h1
  · next hdim =>
      rw [if_pos hdim]
      have hd : img.data = d := congrArg Prod.fst h1
      rw [hd]
  · next hdim =>
      rw [if_neg hdim]
      split at h1
      · next e heq =>
          have hd : e.data = d := congrArg Prod.fst h1
          have hσ : σ = σ1 := congrArg Prod.snd h1
          obtain ⟨⟨Δ, hΔ⟩, -, -⟩ := hext
          rw [hΔ, ← hσ, find?_append_some _ _ Δ _ heq]
          simp only []
          rw [hd]
      · next heq =>
          have hd : fitLen (ext.resample (normAlg alg1) img rect.Width rect.Height)
              (rect.Width * rect.Height * 4).toNat = d := congrArg Prod.fst h1
          have hσ : ({ σ with scaledImageCache := σ.scaledImageCache ++
              [{ data := fitLen (ext.resample (normAlg alg1) img rect.Width rect.Height)
                   (rect.Width * rect.Height * 4).toNat,
                 height := rect.Height.toNat,
                 width := rect.Width.toNat }] } : CState) = σ1 :=
            congrArg Prod.snd h1
          obtain ⟨⟨Δ, hΔ⟩, -, -⟩ := hext
          have hs1 : σ1.scaledImageCache = σ.scaledImageCache ++
              [{ data := fitLen (ext.resample (normAlg alg1) img rect.Width rect.Height)
                   (rect.Width * rect.Height * 4).toNat,
                 height := rect.Height.toNat,
                 width := rect.Width.toNat }] := by
            rw [← hσ]
          rw [hΔ, hs1, List.append_assoc, find?_append_none _ _ _ heq,
            List.singleton_append, find?_cons_pos]
          · simp only []
            rw [hd]
          · simp [Int.toNat_of_nonneg hW, Int.toNat_of_nonneg hH]

end Png2icons

namespace Png2icons

/-- Re-running a *successful* `getCachedPNG` on any extension of its
result state hits the cache and leaves the state unchanged. -/
theorem getCachedPNG_stable (ext : Ext) (rgba rgba2 : List Nat) (w h n n2 : Int)
    (σ σ1 σ2 : CState) (d : List Nat)
    (h1 : getCachedPNG ext rgba w h n σ = (some d, σ1))
    (hext : cacheExtends σ1 σ2) :
    getCachedPNG ext rgba2 w h n2 σ2 = (some d, σ2) := by
  simp only [getCachedPNG] at h1 ⊢
  split at h1
  · next e heq =>
      have hd : some e.Data = some d := congrArg Prod.fst h1
      have hσ : σ = σ1 := congrArg Prod.snd h1
      obtain ⟨-, ⟨Δ, hΔ⟩, -⟩ := hext
      rw [hΔ, ← hσ, find?_append_some _ _ Δ _ heq]
      simp only []
      rw [hd]
  · next heq =>
      split at h1
      · next result henc =>
          have hd : some result = some d := congrArg Prod.fst h1
          have hσ : ({ σ with scaledPNGImageCache := σ.scaledPNGImageCache ++
              [{ Data := result, Width := w, Height := h }] } : CState) = σ1 :=
            congrArg Prod.snd h1
          obtain ⟨-, ⟨Δ, hΔ⟩, -⟩ := hext
          have hs1 : σ1.scaledPNGImageCache = σ.scaledPNGImageCache ++
              [{ Data := result, Width := w, Height := h }] := by
            rw [← hσ]
          rw [hΔ, hs1, List.append_assoc, find?_append_none _ _ _ heq,
            List.singleton_append, find?_cons_pos]
          · simp only []
            rw [hd]
          · simp
      · next henc =>
          exact Option.noConfusion (congrArg Prod.fst h1)

/-- A failed `getCachedPNG` leaves the state untouched. -/
theorem getCachedPNG_none_snd (ext : Ext) (rgba : List Nat) (w h n : Int)
    (σ σ1 : CState) (h1 : getCachedPNG ext rgba w h n σ = (none, σ1)) :
    σ1 = σ := by
  simp only [getCachedPNG] at h1
  split at h1
  · next e heq => exact Option.noConfusion (congrArg Prod.fst h1)
  · next heq =>
      split at h1
      · next result henc => exact Option.noConfusion (congrArg Prod.fst h1)
      · next henc => exact (congrArg Prod.snd h1).symm

end Png2icons

namespace Png2icons

/-- One ICO loop iteration only appends to the caches. -/
theorem icoStep_extends (ext : Ext) (src : Image) (alg n : Int)
    (PNG fwe : Bool) (sz : Nat) (acc : IcoAcc) (σ : CState) :
    cacheExtends σ (icoStep ext src alg n PNG fwe sz acc σ).2 := by
  simp only [icoStep]
  set R : IRect := getStretchedRect (getRect 0 0 (src.width : Int) (src.height : Int))
    (getRect 0 0 (sz : Int) (sz : Int)) with hR
  rcases hs : getScaledImageData ext src R alg σ with ⟨d, σa⟩
  have hexa : cacheExtends σ σa := by
    have h := getScaledImageData_extends ext src R alg σ
    rw [hs] at h
    exact h
  simp only []
  split
  · rcases hp : getCachedPNG ext d (R.Width.toNat : Int) (R.Height.toNat : Int)
        (clampColors n) σa with ⟨o, σb⟩
    have hexb : cacheExtends σa σb := by
      have h := getCachedPNG_extends ext d (R.Width.toNat : Int) (R.Height.toNat : Int)
        (clampColors n) σa
      rw [hp] at h
      exact h
    cases o with
    | none => exact cacheExtends_trans hexa hexb
    | some enc => exact cacheExtends_trans hexa hexb
  · exact hexa

end Png2icons

namespace Png2icons

/-- The ICO chunk loop only appends to the caches. -/
theorem icoLoop_extends (ext : Ext) (src : Image) (alg n : Int)
    (PNG fwe : Bool) (sizes : List Nat) :
    ∀ (acc : IcoAcc) (σ : CState),
      cacheExtends σ (icoLoop ext src alg n PNG fwe sizes acc σ).2 := by
  induction sizes with
  | nil => intro acc σ; exact cacheExtends_refl σ
  | cons sz rest ih =>
    intro acc σ
    simp only [icoLoop]
    rcases hstep : icoStep ext src alg n PNG fwe sz acc σ with ⟨o, σa⟩
    have hexa : cacheExtends σ σa := by
      have h := icoStep_extends ext src alg n PNG fwe sz acc σ
      rw [hstep] at h
      exact h
    cases o with
    | none => exact hexa
    | some acc2 => exact cacheExtends_trans hexa (ih acc2 σa)

end Png2icons

namespace Png2icons

/-- Re-running a successful ICO iteration with any algorithm on an
extension of its result state yields the same directory entry and payload
and leaves the state unchanged. -/
theorem icoStep_stable (ext : Ext) (src : Image) (alg1 alg2 n : Int)
    (PNG fwe : Bool) (sz : Nat) (acc acc2 : IcoAcc) (σ σ1 σ2 : CState)
    (h1 : icoStep ext src alg1 n PNG fwe sz acc σ = (some acc2, σ1))
    (hext : cacheExtends σ1 σ2) :
    icoStep ext src alg2 n PNG fwe sz acc σ2 = (some acc2, σ2) := by
  simp only [icoStep] at h1 ⊢
  set R : IRect := getStretchedRect (getRect 0 0 (src.width : Int) (src.height : Int))
    (getRect 0 0 (sz : Int) (sz : Int)) with hR
  have hnn := getStretchedRect_nonneg (getRect 0 0 (src.width : Int) (src.height : Int))
    (getRect 0 0 (sz : Int) (sz : Int)) (by simp) (by simp) (by simp) (by simp)
  rcases hs : getScaledImageData ext src R alg1 σ with ⟨d, σa⟩
  rw [hs] at h1
  simp only [] at h1
  by_cases hpng : icoUsesPNG PNG fwe R.Height
  · rw [if_pos hpng] at h1
    rcases hp : getCachedPNG ext d (R.Width.toNat : Int) (R.Height.toNat : Int)
        (clampColors n) σa with ⟨o, σb⟩
    rw [hp] at h1
    cases o with
    | none =>
      simp only [] at h1
      exact Option.noConfusion (congrArg Prod.fst h1)
    | some enc =>
      simp only [] at h1
      rw [Prod.mk.injEq] at h1
      obtain ⟨hfst, hσb⟩ := h1
      have hextb : cacheExtends σa σ2 := by
        have hx : cacheExtends σa σb := by
          have h := getCachedPNG_extends ext d (R.Width.toNat : Int) (R.Height.toNat : Int)
            (clampColors n) σa
          rw [hp] at h
          exact h
        exact cacheExtends_trans hx (hσb ▸ hext)
      have hs2 : getScaledImageData ext src R alg2 σ2 = (d, σ2) :=
        getScaledImageData_stable ext src R alg1 alg2 σ σa σ2 d hnn.1 hnn.2 hs hextb
      rw [hs2]
      simp only []
      rw [if_pos hpng]
      have hp2 : getCachedPNG ext d (R.Width.toNat : Int) (R.Height.toNat : Int)
          (clampColors n) σ2 = (some enc, σ2) :=
        getCachedPNG_stable ext d d (R.Width.toNat : Int) (R.Height.toNat : Int)
          (clampColors n) (clampColors n) σa σb σ2 enc hp (hσb ▸ hext)
      rw [hp2]
      simp only []
      rw [hfst]
  · rw [if_neg hpng] at h1
    rw [Prod.mk.injEq] at h1
    obtain ⟨hfst, hσa⟩ := h1
    have hs2 : getScaledImageData ext src R alg2 σ2 = (d, σ2) :=
      getScaledImageData_stable ext src R alg1 alg2 σ σa σ2 d hnn.1 hnn.2 hs
        (hσa ▸ hext)
    rw [hs2]
    simp only []
    rw [if_neg hpng]
    rw [hfst]

end Png2icons

namespace Png2icons

/-- Re-running a *failed* ICO iteration (the PNG encoder threw) on its
result state fails again without touching the state. -/
theorem icoStep_fail_stable (ext : Ext) (src : Image) (alg1 alg2 n : Int)
    (PNG fwe : Bool) (sz : Nat) (acc : IcoAcc) (σ σ1 : CState)
    (h1 : icoStep ext src alg1 n PNG fwe sz acc σ = (none, σ1)) :
    icoStep ext src alg2 n PNG fwe sz acc σ1 = (none, σ1) := by
  simp only [icoStep] at h1 ⊢
  set R : IRect := getStretchedRect (getRect 0 0 (src.width : Int) (src.height : Int))
    (getRect 0 0 (sz : Int) (sz : Int)) with hR
  have hnn := getStretchedRect_nonneg (getRect 0 0 (src.width : Int) (src.height : Int))
    (getRect 0 0 (sz : Int) (sz : Int)) (by simp) (by simp) (by simp) (by simp)
  rcases hs : getScaledImageData ext src R alg1 σ with ⟨d, σa⟩
  rw [hs] at h1
  simp only [] at h1
  by_cases hpng : icoUsesPNG PNG fwe R.Height
  · rw [if_pos hpng] at h1
    rcases hp : getCachedPNG ext d (R.Width.toNat : Int) (R.Height.toNat : Int)
        (clampColors n) σa with ⟨o, σb⟩
    rw [hp] at h1
    cases o with
    | some enc =>
      simp only [] at h1
      rw [Prod.mk.injEq] at h1
      exact Option.noConfusion h1.1
    | none =>
      simp only [] at h1
      rw [Prod.mk.injEq] at h1
      obtain ⟨-, hσb⟩ := h1
      have hba : σb = σa := getCachedPNG_none_snd ext d _ _ _ σa σb hp
      have hae : σa = σ1 := by rw [← hσb, hba]
      have hs2 : getScaledImageData ext src R alg2 σ1 = (d, σ1) :=
        getScaledImageData_stable ext src R alg1 alg2 σ σa σ1 d hnn.1 hnn.2 hs
          (hae ▸ cacheExtends_refl σa)
      rw [hs2]
      simp only []
      rw [if_pos hpng]
      have hp2 : getCachedPNG ext d (R.Width.toNat : Int) (R.Height.toNat : Int)
          (clampColors n) σ1 = (none, σ1) := by
        rw [← hae, hp, hba]
      rw [hp2]
  · rw [if_neg hpng] at h1
    rw [Prod.mk.injEq] at h1
    exact Option.noConfusion h1.1

end Png2icons

namespace Png2icons

/-- Re-running a successful ICO chunk loop with any algorithm on an
extension of its final state reproduces the same accumulator. -/
theorem icoLoop_stable (ext : Ext) (src : Image) (alg1 alg2 n : Int)
    (PNG fwe : Bool) (sizes : List Nat) :
    ∀ (acc accF : IcoAcc) (σ σ1 σ2 : CState),
      icoLoop ext src alg1 n PNG fwe sizes acc σ = (some accF, σ1) →
      cacheExtends σ1 σ2 →
      icoLoop ext src alg2 n PNG fwe sizes acc σ2 = (some accF, σ2) := by
  induction sizes with
  | nil =>
    intro acc accF σ σ1 σ2 h1 hext
    simp only [icoLoop] at h1 ⊢
    rw [Prod.mk.injEq] at h1
    rw [h1.1]
  | cons sz rest ih =>
    intro acc accF σ σ1 σ2 h1 hext
    simp only [icoLoop] at h1 ⊢
    rcases hstep : icoStep ext src alg1 n PNG fwe sz acc σ with ⟨o, σa⟩
    rw [hstep] at h1
    cases o with
    | none =>
      simp only [] at h1
      rw [Prod.mk.injEq] at h1
      exact Option.noConfusion h1.1
    | some acc2 =>
      simp only [] at h1
      have hexa : cacheExtends σa σ1 := by
        have h := icoLoop_extends ext src alg1 n PNG fwe rest acc2 σa
        rw [h1] at h
        exact h
      have hstep2 : icoStep ext src alg2 n PNG fwe sz acc σ2 = (some acc2, σ2) :=
        icoStep_stable ext src alg1 alg2 n PNG fwe sz acc acc2 σ σa σ2 hstep
          (cacheExtends_trans hexa hext)
      rw [hstep2]
      simp only []
      exact ih acc2 accF σa σ1 σ2 h1 hext

/-- Re-running a *failed* ICO chunk loop on its result state fails again
with the state unchanged. -/
theorem icoLoop_fail_stable (ext : Ext) (src : Image) (alg1 alg2 n : Int)
    (PNG fwe : Bool) (sizes : List Nat) :
    ∀ (acc : IcoAcc) (σ σ1 : CState),
      icoLoop ext src alg1 n PNG fwe sizes acc σ = (none, σ1) →
      icoLoop ext src alg2 n PNG fwe sizes acc σ1 = (none, σ1) := by
  induction sizes with
  | nil =>
    intro acc σ σ1 h1
    simp only [icoLoop] at h1
    rw [Prod.mk.injEq] at h1
    exact Option.noConfusion h1.1
  | cons sz rest ih =>
    intro acc σ σ1 h1
    simp only [icoLoop] at h1 ⊢
    rcases hstep : icoStep ext src alg1 n PNG fwe sz acc σ with ⟨o, σa⟩
    rw [hstep] at h1
    cases o with
    | none =>
      simp only [] at h1
      rw [Prod.mk.injEq] at h1
      obtain ⟨-, hσa⟩ := h1
      have hstep2 : icoStep ext src alg2 n PNG fwe sz acc σ1 = (none, σ1) :=
        icoStep_fail_stable ext src alg1 alg2 n PNG fwe sz acc σ σ1 (hσa ▸ hstep)
      rw [hstep2]
    | some acc2 =>
      simp only [] at h1
      have hexa : cacheExtends σa σ1 := by
        have h := icoLoop_extends ext src alg1 n PNG fwe rest acc2 σa
        rw [h1] at h
        exact h
      have hstep2 : icoStep ext src alg2 n PNG fwe sz acc σ1 = (some acc2, σ1) :=
        icoStep_stable ext src alg1 alg2 n PNG fwe sz acc acc2 σ σa σ1 hstep hexa
      rw [hstep2]
      simp only []
      exact ih acc2 σa σ1 h1

/-- `checkCache` always remembers the input it was given. -/
theorem checkCache_currentImage (input : List Nat) (σ : CState) :
    (checkCache input σ).currentImage = some input := by
  simp only [checkCache]
  split
  · rfl
  · next current heq =>
      split
      · next h => rw [heq, h]
      · rfl

/-- `checkCache` is the identity when the remembered input is unchanged. -/
theorem checkCache_self (input : List Nat) (σ : CState)
    (h : σ.currentImage = some input) : checkCache input σ = σ := by
  simp only [checkCache]
  rw [h]
  simp

end Png2icons

namespace Png2icons

/-- After any `createICO` call the cache state remembers the input buffer. -/
theorem createICO_currentImage (ext : Ext) (input : List Nat)
    (alg n : Int) (PNG fwe : Bool) (σ : CState) :
    (createICO ext input alg n PNG fwe σ).2.currentImage = some input := by
  simp only [createICO]
  cases hdec : ext.upngDecode input with
  | none => exact checkCache_currentImage input σ
  | some im =>
    simp only []
    rcases hL : icoLoop ext (getQuadraticImage im) alg n PNG fwe icoChunkSizes
        { dir := [getICONDIR icoChunkSizes.length], imgs := [], total := 6,
          offset := 6 + icoChunkSizes.length * 16 } (checkCache input σ) with ⟨o, σL⟩
    have hex : cacheExtends (checkCache input σ) σL := by
      have h := icoLoop_extends ext (getQuadraticImage im) alg n PNG fwe icoChunkSizes
        { dir := [getICONDIR icoChunkSizes.length], imgs := [], total := 6,
          offset := 6 + icoChunkSizes.length * 16 } (checkCache input σ)
      rw [hL] at h
      exact h
    cases o with
    | none =>
      show σL.currentImage = some input
      rw [hex.2.2, checkCache_currentImage]
    | some accF =>
      show σL.currentImage = some input
      rw [hex.2.2, checkCache_currentImage]

end Png2icons

/-- **C10** — the memo caches are keyed by (width, height) only and cache
invalidation compares only the input bytes, so a second `createICO` call
with the same input buffer but a *different* scaling algorithm returns the
byte-identical output (and the same state): the second algorithm argument
has no effect. -/
theorem createICO_second_algorithm_ignored (ext : Png2icons.Ext) (input : List Nat)
    (alg1 alg2 numOfColors : Int) (PNG forWinExe : Bool) (σ : Png2icons.CState) :
    Png2icons.createICO ext input alg2 numOfColors PNG forWinExe
        (Png2icons.createICO ext input alg1 numOfColors PNG forWinExe σ).2
      = Png2icons.createICO ext input alg1 numOfColors PNG forWinExe σ := by
  have hcur := Png2icons.createICO_currentImage ext input alg1 numOfColors PNG forWinExe σ
  rcases h1 : Png2icons.createICO ext input alg1 numOfColors PNG forWinExe σ with ⟨r1, σ1⟩
  rw [h1] at hcur
  have hcc : Png2icons.checkCache input σ1 = σ1 := Png2icons.checkCache_self input σ1 hcur
  show Png2icons.createICO ext input alg2 numOfColors PNG forWinExe σ1 = (r1, σ1)
  simp only [Png2icons.createICO] at h1 ⊢
  rw [hcc]
  cases hdec : ext.upngDecode input with
  | none =>
    rw [hdec] at h1
    simp only [] at h1
    rw [Prod.mk.injEq] at h1
    rw [← h1.1]
  | some im =>
    rw [hdec] at h1
    simp only [] at h1
    simp only []
    rcases hL : Png2icons.icoLoop ext (Png2icons.getQuadraticImage im) alg1 numOfColors
        PNG forWinExe Png2icons.icoChunkSizes
        { dir := [Png2icons.getICONDIR Png2icons.icoChunkSizes.length], imgs := [],
          total := 6, offset := 6 + Png2icons.icoChunkSizes.length * 16 }
        (Png2icons.checkCache input σ) with ⟨o, σL⟩
    rw [hL] at h1
    cases o with
    | none =>
      simp only [] at h1
      rw [Prod.mk.injEq] at h1
      obtain ⟨hr1, hσL⟩ := h1
      have hL2 : Png2icons.icoLoop ext (Png2icons.getQuadraticImage im) alg2 numOfColors
          PNG forWinExe Png2icons.icoChunkSizes
          { dir := [Png2icons.getICONDIR Png2icons.icoChunkSizes.length], imgs := [],
            total := 6, offset := 6 + Png2icons.icoChunkSizes.length * 16 } σ1
          = (none, σ1) :=
        Png2icons.icoLoop_fail_stable ext (Png2icons.getQuadraticImage im) alg1 alg2
          numOfColors PNG forWinExe Png2icons.icoChunkSizes _ (Png2icons.checkCache input σ)
          σ1 (hσL ▸ hL)
      rw [hL2]
      simp only []
      rw [← hr1]
    | some accF =>
      simp only [] at h1
      rw [Prod.mk.injEq] at h1
      obtain ⟨hr1, hσL⟩ := h1
      have hL2 : Png2icons.icoLoop ext (Png2icons.getQuadraticImage im) alg2 numOfColors
          PNG forWinExe Png2icons.icoChunkSizes
          { dir := [Png2icons.getICONDIR Png2icons.icoChunkSizes.length], imgs := [],
            total := 6, offset := 6 + Png2icons.icoChunkSizes.length * 16 } σ1
          = (some accF, σ1) :=
        Png2icons.icoLoop_stable ext (Png2icons.getQuadraticImage im) alg1 alg2
          numOfColors PNG forWinExe Png2icons.icoChunkSizes _ accF
          (Png2icons.checkCache input σ) σ1 σ1 (hσL ▸ hL) (Png2icons.cacheExtends_refl σ1)
      rw [hL2]
      simp only []
      rw [← hr1]

namespace PackBits

/-- PackBits output is at most twice the input (plus nothing): every record
consumes at least one byte and emits at most a 1-byte header plus the
consumed bytes (or exactly 2 bytes for a run). -/
theorem encode_length_le (s : List Nat) : (encode s).length ≤ 2 * s.length := by
  induction s using encode.induct with
  | case1 => simp [encode]
  | case2 a => simp [encode]
  | case3 a b => simp [encode]
  | case4 x y z rest hrep ih =>
    rw [encode, if_pos hrep]
    have h1 : leadRun x (x :: y :: z :: rest) = leadRun x (y :: z :: rest) + 1 := by
      simp [leadRun]
    simp only [List.length_cons, List.length_drop] at ih ⊢
    omega
  | case5 x y z rest hrep ih =>
    rw [encode, if_neg hrep]
    have hge := litLen_ge ((x :: y :: z :: rest).drop 3) z 1 3
    have hle := litLen_le_add ((x :: y :: z :: rest).drop 3) z 1 3
    simp only [List.length_cons, List.length_drop, List.length_append,
      List.length_take] at ih hle ⊢
    omega

end PackBits

namespace Png2icons

@[simp] theorem writeUInt32BE_length (v : Nat) : (writeUInt32BE v).length = 4 := rfl

/-- The channel extractor returns exactly `image.length / bpp` bytes. -/
theorem getImageChannel_length (image : List Nat) (bpp channelIndex : Nat) :
    (getImageChannel image bpp channelIndex).length = image.length / bpp := by
  simp [getImageChannel, fitLen_length]

/-- Size bound for a PackBits-encoded icon chunk payload. -/
theorem encodeIconWithPackBits_length_le (image : List Nat) (withAlphaChannel : Bool) :
    (encodeIconWithPackBits image withAlphaChannel).length ≤ 4 + 2 * image.length := by
  have hch : ∀ c, (PackBits.encode (getImageChannel image 4 c)).length
      ≤ 2 * (image.length / 4) := by
    intro c
    have := PackBits.encode_length_le (getImageChannel image 4 c)
    rwa [getImageChannel_length] at this
  have hq : image.length / 4 * 4 ≤ image.length := Nat.div_mul_le_self _ _
  simp only [encodeIconWithPackBits]
  split
  · simp only [List.length_append, List.length_cons, List.length_nil]
    have h0 := hch 0
    have h1 := hch 1
    have h2 := hch 2
    have h3 := hch 3
    omega
  · simp only [List.length_append]
    have h0 := hch 0
    have h1 := hch 1
    have h2 := hch 2
    omega

/-- Length of a concatenation whose members are all bounded by `B`. -/
theorem concatAll_length_le (ls : List (List Nat)) (B : Nat)
    (h : ∀ x ∈ ls, x.length ≤ B) : (concatAll ls).length ≤ ls.length * B := by
  induction ls with
  | nil => simp [concatAll]
  | cons a t ih =>
    rw [concatAll_cons]
    simp only [List.length_append, List.length_cons]
    have ha := h a (by simp)
    have ht := ih (fun x hx => h x (by simp [hx]))
    calc a.length + (concatAll t).length ≤ B + t.length * B := by omega
    _ = (t.length + 1) * B := by ring

/-- Both caches hold only entries of at most `2 ^ 24` bytes. -/
def cacheBounded (σ : CState) : Prop :=
  (∀ e ∈ σ.scaledImageCache, e.data.length ≤ 2 ^ 24) ∧
  (∀ e ∈ σ.scaledPNGImageCache, e.Data.length ≤ 2 ^ 24)

/-- The external PNG encoder only returns buffers of at most `2 ^ 24`
bytes (any real PNG of a ≤ 1024 px icon is far smaller). -/
def encOK (ext : Ext) : Prop :=
  ∀ d w h c p, ext.upngEncode d w h c = some p → p.length ≤ 2 ^ 24

theorem checkCache_bounded (input : List Nat) (σ : CState)
    (h : cacheBounded σ) : cacheBounded (checkCache input σ) := by
  simp only [checkCache]
  split
  · exact h
  · split
    · exact h
    · exact ⟨fun e he => absurd he (List.not_mem_nil e),
        fun e he => absurd he (List.not_mem_nil e)⟩

end Png2icons

namespace Png2icons

/-- On bounded inputs `getScaledImageData` returns bounded bytes and
preserves cache boundedness. -/
theorem getScaledImageData_bounded (ext : Ext) (img : Image) (rect : IRect)
    (alg : Int) (σ : CState)
    (himg : img.data.length ≤ 2 ^ 24)
    (hrect : (rect.Width * rect.Height * 4).toNat ≤ 2 ^ 24)
    (hσ : cacheBounded σ) :
    (getScaledImageData ext img rect alg σ).1.length ≤ 2 ^ 24 ∧
    cacheBounded (getScaledImageData ext img rect alg σ).2 := by
  simp only [getScaledImageData]
  split
  · exact ⟨himg, hσ⟩
  · split
    · next e heq =>
        exact ⟨hσ.1 e (List.mem_of_find?_eq_some heq), hσ⟩
    · next heq =>
        refine ⟨?_, ?_, hσ.2⟩
        · show (fitLen _ _).length ≤ 2 ^ 24
          rw [fitLen_length]
          exact hrect
        · intro e he
          rw [List.mem_append] at he
          cases he with
          | inl h => exact hσ.1 e h
          | inr h =>
            rw [List.mem_singleton] at h
            subst h
            show (fitLen _ _).length ≤ 2 ^ 24
            rw [fitLen_length]
            exact hrect

end Png2icons

namespace Png2icons

/-- A successful `getCachedPNG` returns a bounded payload and preserves
cache boundedness, provided the external encoder is bounded. -/
theorem getCachedPNG_bounded (ext : Ext) (rgba : List Nat) (w h n : Int)
    (σ σ1 : CState) (p : List Nat)
    (henc : encOK ext) (hσ : cacheBounded σ)
    (h1 : getCachedPNG ext rgba w h n σ = (some p, σ1)) :
    p.length ≤ 2 ^ 24 ∧ cacheBounded σ1 := by
  simp only [getCachedPNG] at h1
  split at h1
  · next e heq =>
      have hp : some e.Data = some p := congrArg Prod.fst h1
      have hσ1 : σ = σ1 := congrArg Prod.snd h1
      rw [Option.some.injEq] at hp
      rw [← hp, ← hσ1]
      exact ⟨hσ.2 e (List.mem_of_find?_eq_some heq), hσ⟩
  · next heq =>
      split at h1
      · next result hres =>
          rw [Prod.mk.injEq, Option.some.injEq] at h1
          obtain ⟨hp, hσ1⟩ := h1
          have hres' := henc _ _ _ _ _ hres
          subst hp
          refine ⟨hres', ?_⟩
          rw [← hσ1]
          refine ⟨hσ.1, ?_⟩
          intro e he
          rw [List.mem_append] at he
          cases he with
          | inl hh => exact hσ.2 e hh
          | inr hh =>
            rw [List.mem_singleton] at hh
            subst hh
            exact hres'
      · next hres => exact Option.noConfusion (congrArg Prod.fst h1)

end Png2icons

namespace Png2icons

/-- A successful `appendIcnsChunk` on a square, bounded source appends
exactly one serialized chunk with a payload of at most `2 ^ 26` bytes and
preserves cache boundedness. -/
theorem appendIcnsChunk_bounded (ext : Ext) (c : IICNSChunkParams) (img : Image)
    (alg n : Int) (buf : List Nat) (σ : CState) (buf2 : List Nat) (σ2 : CState)
    (s : Nat)
    (hsq : img.height = img.width) (hE : 1 ≤ img.width)
    (himg : img.data.length ≤ 2 ^ 24)
    (hcs : c.Size = (s : Int)) (hs : s ≤ 1024)
    (henc : encOK ext) (hσ : cacheBounded σ)
    (h1 : appendIcnsChunk ext c img alg n buf σ = (some buf2, σ2)) :
    cacheBounded σ2 ∧
    ∃ payload : List Nat, payload.length ≤ 2 ^ 26 ∧
      buf2 = buf ++ icnsChunkBytes c.OSType payload := by
  have hpow : (2 : Nat) ^ 24 = 16777216 ∧ (2 : Nat) ^ 26 = 67108864 := by norm_num
  simp only [appendIcnsChunk] at h1
  rw [hsq, hcs, getStretchedRect_square img.width s hE] at h1
  simp only [getRect_Width, getRect_Height] at h1
  have hrect : (((getRect 0 0 (s : Int) (s : Int)).Width *
      (getRect 0 0 (s : Int) (s : Int)).Height * 4).toNat) ≤ 2 ^ 24 := by
    simp only [getRect_Width, getRect_Height]
    have hcast : ((s : Int) * (s : Int) * 4) = ((s * s * 4 : Nat) : Int) := by
      push_cast
      ring
    rw [hcast, Int.toNat_natCast]
    calc s * s * 4 ≤ 1024 * 1024 * 4 :=
        Nat.mul_le_mul_right 4 (Nat.mul_le_mul hs hs)
    _ ≤ 2 ^ 24 := by norm_num
  have hsid := getScaledImageData_bounded ext img (getRect 0 0 (s : Int) (s : Int))
    alg σ himg hrect hσ
  rcases hsd : getScaledImageData ext img (getRect 0 0 (s : Int) (s : Int)) alg σ
    with ⟨d, σa⟩
  rw [hsd] at h1 hsid
  simp only [] at h1 hsid
  obtain ⟨hd, hσa⟩ := hsid
  cases hfmt : c.Format with
  | PNG =>
    rw [hfmt] at h1
    simp only [] at h1
    rcases hp : getCachedPNG ext d (s : Int) (s : Int) n σa with ⟨o, σb⟩
    rw [hp] at h1
    cases o with
    | none =>
      simp only [] at h1
      exact Option.noConfusion (congrArg Prod.fst h1)
    | some enc =>
      simp only [] at h1
      rw [Prod.mk.injEq, Option.some.injEq] at h1
      obtain ⟨hbuf, hσ2⟩ := h1
      have hpb := getCachedPNG_bounded ext d (s : Int) (s : Int) n σa σb enc henc hσa hp
      exact ⟨hσ2 ▸ hpb.2, enc, le_trans hpb.1 (by omega), hbuf.symm⟩
  | PackBitsARGB =>
    rw [hfmt] at h1
    simp only [] at h1
    rw [Prod.mk.injEq, Option.some.injEq] at h1
    obtain ⟨hbuf, hσ2⟩ := h1
    refine ⟨hσ2 ▸ hσa, encodeIconWithPackBits d true, ?_, hbuf.symm⟩
    have hb := encodeIconWithPackBits_length_le d true
    omega
  | PackBitsRGB =>
    rw [hfmt] at h1
    simp only [] at h1
    rw [Prod.mk.injEq, Option.some.injEq] at h1
    obtain ⟨hbuf, hσ2⟩ := h1
    refine ⟨hσ2 ▸ hσa, encodeIconWithPackBits d false, ?_, hbuf.symm⟩
    have hb := encodeIconWithPackBits_length_le d false
    omega
  | Alpha =>
    rw [hfmt] at h1
    simp only [] at h1
    rw [Prod.mk.injEq, Option.some.injEq] at h1
    obtain ⟨hbuf, hσ2⟩ := h1
    refine ⟨hσ2 ▸ hσa, getImageChannel d 4 3, ?_, hbuf.symm⟩
    rw [getImageChannel_length]
    have := Nat.div_le_self d.length 4
    omega

end Png2icons

namespace Png2icons

/-- Every chunk descriptor in the fixed ICNS table has a 4-byte OSType tag
and a size between 0 and 1024. -/
theorem icnsChunks_wf :
    ∀ c ∈ icnsChunks, c.OSType.length = 4 ∧ c.Size ≤ 1024 := by
  decide

/-- Loop invariant of `icnsLoop`: a successful run appends one serialized
chunk per table entry, each with a 4-byte tag and a payload of at most
`2 ^ 26` bytes. -/
theorem icnsLoop_framing (ext : Ext) (img : Image) (alg n : Int)
    (hsq : img.height = img.width) (hE : 1 ≤ img.width)
    (himg : img.data.length ≤ 2 ^ 24) (henc : encOK ext) :
    ∀ (chunks : List IICNSChunkParams),
      (∀ c ∈ chunks, c.OSType.length = 4 ∧ c.Size ≤ 1024) →
      ∀ (buf : List Nat) (σ : CState) (out : List Nat) (σ2 : CState),
      cacheBounded σ →
      icnsLoop ext img alg n chunks buf σ = (some out, σ2) →
      ∃ cs : List (List Nat × List Nat),
        out = buf ++ concatAll (cs.map fun e => icnsChunkBytes e.1 e.2) ∧
        cs.length = chunks.length ∧
        ∀ e ∈ cs, e.1.length = 4 ∧ e.2.length ≤ 2 ^ 26 := by
  intro chunks
  induction chunks with
  | nil =>
    intro hch buf σ out σ2 hσ h1
    simp only [icnsLoop] at h1
    rw [Prod.mk.injEq, Option.some.injEq] at h1
    exact ⟨[], by simp [concatAll_nil, ← h1.1], rfl, by simp⟩
  | cons c rest ih =>
    intro hch buf σ out σ2 hσ h1
    simp only [icnsLoop] at h1
    rcases hstep : appendIcnsChunk ext c img alg n buf σ with ⟨o, σa⟩
    rw [hstep] at h1
    cases o with
    | none =>
      simp only [] at h1
      rw [Prod.mk.injEq] at h1
      exact Option.noConfusion h1.1
    | some buf2 =>
      simp only [] at h1
      have hc := hch c (by simp)
      have hstep2 := appendIcnsChunk_bounded ext c img alg n buf σ buf2 σa
        c.Size hsq hE himg rfl hc.2 henc hσ hstep
      obtain ⟨hσa, payload, hpl, hbuf2⟩ := hstep2
      obtain ⟨cs, hout, hlen, hcs⟩ := ih (fun x hx => hch x (by simp [hx]))
        buf2 σa out σ2 hσa h1
      refine ⟨(c.OSType, payload) :: cs, ?_, by simp [hlen], ?_⟩
      · rw [hout, hbuf2]
        simp only [List.map_cons, concatAll_cons, List.append_assoc]
      · intro e he
        rw [List.mem_cons] at he
        cases he with
        | inl h => subst h; exact ⟨hc.1, hpl⟩
        | inr h => exact hcs e h

end Png2icons

/-- **C7** — ICNS framing: for every successful `createICNS` result the
big-endian 32-bit field at byte offset 4 equals the total length of the
returned buffer, and the buffer is the `icns` magic, that length field,
and a concatenation of chunks each of whose big-endian 32-bit length
field (at offset 4 inside the chunk) equals its payload length plus 8. -/
theorem createICNS_framing :
    ∀ (ext : Png2icons.Ext) (input : List Nat) (alg n : Int) (σ : Png2icons.CState)
      (im : Png2icons.Image) (buf : List Nat) (σ2 : Png2icons.CState),
      ext.upngDecode input = some im →
      1 ≤ max im.height im.width →
      max im.height im.width ≤ 1024 →
      im.data.length ≤ 2 ^ 24 →
      Png2icons.encOK ext →
      Png2icons.cacheBounded σ →
      Png2icons.createICNS ext input alg n σ = (some buf, σ2) →
      Png2icons.readUInt32BE buf 4 = buf.length ∧
      ∃ cs : List (List Nat × List Nat),
        buf = [105, 99, 110, 115] ++ Png2icons.writeUInt32BE buf.length ++
          Png2icons.concatAll (cs.map fun e => Png2icons.icnsChunkBytes e.1 e.2) ∧
        ∀ e ∈ cs, Png2icons.readUInt32BE (Png2icons.icnsChunkBytes e.1 e.2) 4
          = e.2.length + 8 := by
  intro ext input alg n σ im buf σ2 hdec h1max h2max hdata henc hσ hrun
  have hpow : (2 : Nat) ^ 24 = 16777216 ∧ (2 : Nat) ^ 26 = 67108864 ∧
      (2 : Nat) ^ 32 = 4294967296 := by norm_num
  simp only [Png2icons.createICNS] at hrun
  rw [hdec] at hrun
  simp only [] at hrun
  have hsq := Png2icons.getQuadraticImage_square im
  have hmaxle := max_le_iff.mp h2max
  have hdle := Png2icons.getQuadraticImage_data_le im hdata
    (le_trans hmaxle.2 (by norm_num)) (le_trans hmaxle.1 (by norm_num))
  rcases hL : Png2icons.icnsLoop ext (Png2icons.getQuadraticImage im) alg
      (Png2icons.clampColors n) Png2icons.icnsChunks Png2icons.icnsHeader0
      (Png2icons.checkCache input σ) with ⟨o, σL⟩
  rw [hL] at hrun
  cases o with
  | none =>
    simp only [] at hrun
    rw [Prod.mk.injEq] at hrun
    exact Option.noConfusion hrun.1
  | some out =>
    simp only [] at hrun
    rw [Prod.mk.injEq, Option.some.injEq] at hrun
    obtain ⟨hbuf, hσL⟩ := hrun
    obtain ⟨cs, hout, hlen, hcs⟩ := Png2icons.icnsLoop_framing ext
      (Png2icons.getQuadraticImage im) alg (Png2icons.clampColors n)
      (hsq.2.trans hsq.1.symm) (by rw [hsq.1]; exact h1max) hdle henc
      Png2icons.icnsChunks Png2icons.icnsChunks_wf Png2icons.icnsHeader0
      (Png2icons.checkCache input σ) out σL
      (Png2icons.checkCache_bounded input σ hσ) hL
  -- framing arithmetic
    have hTlen : (Png2icons.concatAll
        (cs.map fun e => Png2icons.icnsChunkBytes e.1 e.2)).length
        ≤ 12 * (8 + 2 ^ 26) := by
      have hb := Png2icons.concatAll_length_le
        (cs.map fun e => Png2icons.icnsChunkBytes e.1 e.2) (8 + 2 ^ 26) ?_
      · rw [List.length_map, hlen] at hb
        exact hb
      · intro x hx
        rw [List.mem_map] at hx
        obtain ⟨e, he, hxe⟩ := hx
        subst hxe
        have hce := hcs e he
        simp only [Png2icons.icnsChunkBytes, List.length_append,
          Png2icons.writeUInt32BE_length, hce.1]
        have := hce.2
        omega
    have houtlen : out.length = 8 +
        (Png2icons.concatAll (cs.map fun e => Png2icons.icnsChunkBytes e.1 e.2)).length := by
      rw [hout]
      simp [Png2icons.icnsHeader0]
      omega
    have hbufshape : buf = [105, 99, 110, 115] ++ Png2icons.writeUInt32BE out.length ++
        Png2icons.concatAll (cs.map fun e => Png2icons.icnsChunkBytes e.1 e.2) := by
      rw [← hbuf, hout]
      have ht4 : (Png2icons.icnsHeader0 ++
          Png2icons.concatAll (cs.map fun e => Png2icons.icnsChunkBytes e.1 e.2)).take 4
          = [105, 99, 110, 115] := rfl
      have hd8 : (Png2icons.icnsHeader0 ++
          Png2icons.concatAll (cs.map fun e => Png2icons.icnsChunkBytes e.1 e.2)).drop 8
          = Png2icons.concatAll (cs.map fun e => Png2icons.icnsChunkBytes e.1 e.2) := rfl
      rw [ht4, hd8, List.append_assoc]
    have hbl : buf.length = out.length := by
      rw [hbufshape, houtlen]
      simp
      omega
    have hlt : out.length < 2 ^ 32 := by
      rw [houtlen]
      omega
    constructor
    · rw [hbufshape]
      have hr := Png2icons.readUInt32BE_append [105, 99, 110, 115] out.length
        (Png2icons.concatAll (cs.map fun e => Png2icons.icnsChunkBytes e.1 e.2)) hlt
      simp only [List.length_cons, List.length_nil, Nat.reduceAdd] at hr
      rw [List.append_assoc, hr]
      simp only [List.length_append, List.length_cons, List.length_nil,
        Png2icons.writeUInt32BE_length]
      omega
    · refine ⟨cs, ?_, ?_⟩
      · rw [hbl]
        exact hbufshape
      · intro e he
        have hce := hcs e he
        have hr := Png2icons.readUInt32BE_append e.1 (e.2.length + 8) e.2 (by omega)
        rw [hce.1] at hr
        simp only [Png2icons.icnsChunkBytes, List.append_assoc]
        exact hr

namespace Png2icons

/-- `appendIcnsChunk` specialized to a square source, where the stretched
rect is known to be the full square target (kernel-computable: no rational
arithmetic left). -/
def appendIcnsChunkSq (ext : Ext) (chunkParams : IICNSChunkParams) (srcImage : Image)
    (scalingAlgorithm : Int) (numOfColors : Int) (outBuffer : List Nat)
    (σ : CState) : Option (List Nat) × CState :=
  let icnsChunkRect := getRect 0 0 (chunkParams.Size : Int) (chunkParams.Size : Int)
  let sres := getScaledImageData ext srcImage icnsChunkRect scalingAlgorithm σ
  match chunkParams.Format with
  | IconFormat.PNG =>
    let pres := getCachedPNG ext sres.1 icnsChunkRect.Width icnsChunkRect.Height
      numOfColors sres.2
    match pres.1 with
    | none => (none, pres.2)
    | some encodedIcon =>
      (some (outBuffer ++ icnsChunkBytes chunkParams.OSType encodedIcon), pres.2)
  | IconFormat.PackBitsARGB =>
    (some (outBuffer ++ icnsChunkBytes chunkParams.OSType
      (encodeIconWithPackBits sres.1 true)), sres.2)
  | IconFormat.PackBitsRGB =>
    (some (outBuffer ++ icnsChunkBytes chunkParams.OSType
      (encodeIconWithPackBits sres.1 false)), sres.2)
  | IconFormat.Alpha =>
    (some (outBuffer ++ icnsChunkBytes chunkParams.OSType
      (getImageChannel sres.1 4 3)), sres.2)

theorem appendIcnsChunk_eq_sq (ext : Ext) (c : IICNSChunkParams) (img : Image)
    (alg n : Int) (buf : List Nat) (σ : CState)
    (hsq : img.height = img.width) (hE : 1 ≤ img.width) :
    appendIcnsChunk ext c img alg n buf σ
      = appendIcnsChunkSq ext c img alg n buf σ := by
  simp only [appendIcnsChunk, appendIcnsChunkSq]
  rw [hsq, getStretchedRect_square img.width c.Size hE]

/-- The ICNS chunk loop over the square-specialized step. -/
def icnsLoopSq (ext : Ext) (srcImage : Image) (scalingAlgorithm nOfColors : Int) :
    List IICNSChunkParams → List Nat → CState → Option (List Nat) × CState
  | [], buf, σ => (some buf, σ)
  | c :: rest, buf, σ =>
    let r := appendIcnsChunkSq ext c srcImage scalingAlgorithm nOfColors buf σ
    match r.1 with
    | none => (none, r.2)
    | some buf2 => icnsLoopSq ext srcImage scalingAlgorithm nOfColors rest buf2 r.2

theorem icnsLoop_eq_sq (ext : Ext) (img : Image) (alg n : Int)
    (hsq : img.height = img.width) (hE : 1 ≤ img.width) :
    ∀ (chunks : List IICNSChunkParams) (buf : List Nat) (σ : CState),
      icnsLoop ext img alg n chunks buf σ = icnsLoopSq ext img alg n chunks buf σ := by
  intro chunks
  induction chunks with
  | nil => intro buf σ; rfl
  | cons c rest ih =>
    intro buf σ
    simp only [icnsLoop, icnsLoopSq, appendIcnsChunk_eq_sq ext c img alg n buf σ hsq hE]
    rcases hr : appendIcnsChunkSq ext c img alg n buf σ with ⟨o, σa⟩
    cases o with
    | none => rfl
    | some buf2 => exact ih buf2 σa

/-- A collaborator pack for the C7 witness: decodes everything to a fixed
1×1 image, encoder always throws (every PNG lookup must hit the cache). -/
def icnsSqExt : Ext :=
  { upngDecode := fun _ => some { data := [0, 0, 0, 0], width := 1, height := 1 },
    upngEncode := fun _ _ _ _ => none,
    resample := fun _ _ _ _ => [] }

/-- A cache state prefilled so that every lookup of the ICNS chunk table
hits: scaled entries for all seven sizes, PNG entries for all six PNG
sizes, and the current input remembered. -/
def icnsSqState : CState :=
  { scaledImageCache :=
      [ { data := [], width := 16, height := 16 },
        { data := [], width := 32, height := 32 },
        { data := [], width := 64, height := 64 },
        { data := [], width := 128, height := 128 },
        { data := [], width := 256, height := 256 },
        { data := [], width := 512, height := 512 },
        { data := [], width := 1024, height := 1024 } ],
    scaledPNGImageCache :=
      [ { Data := [0], Width := 32, Height := 32 },
        { Data := [0], Width := 64, Height := 64 },
        { Data := [0], Width := 128, Height := 128 },
        { Data := [0], Width := 256, Height := 256 },
        { Data := [0], Width := 512, Height := 512 },
        { Data := [0], Width := 1024, Height := 1024 } ],
    currentImage := some [7] }

/-- The buffer the C7 witness run produces, built over the computable
square-specialized loop. -/
def icnsSqBuf : List Nat :=
  match (icnsLoopSq icnsSqExt { data := [0, 0, 0, 0], width := 1, height := 1 } 2
      (clampColors 256) icnsChunks icnsHeader0 icnsSqState).1 with
  | some out => out.take 4 ++ (writeUInt32BE out.length ++ out.drop 8)
  | none => []

end Png2icons

namespace Png2icons

/-- Concrete evaluation of the C7 witness run: every lookup hits the
prefilled caches, so the run succeeds and leaves the state unchanged. -/
theorem icnsSq_run :
    createICNS icnsSqExt [7] 2 256 icnsSqState = (some icnsSqBuf, icnsSqState) := by
  have hdec : icnsSqExt.upngDecode [7]
      = some { data := [0, 0, 0, 0], width := 1, height := 1 } := rfl
  simp only [createICNS, hdec]
  rw [icnsLoop_eq_sq icnsSqExt
    (getQuadraticImage { data := [0, 0, 0, 0], width := 1, height := 1 }) 2
    (clampColors 256) (by decide) (by decide) icnsChunks icnsHeader0
    (checkCache [7] icnsSqState)]
  simp [icnsLoopSq, appendIcnsChunkSq, getScaledImageData, getCachedPNG, icnsChunks,
    icnsSqState, icnsSqExt, checkCache, clampColors, getQuadraticImage, icnsSqBuf,
    icnsHeader0, icnsChunkBytes, encodeIconWithPackBits, getImageChannel, fitLen,
    writeUInt32BE, PackBits.encode, getRect, normAlg, List.find?]

end Png2icons

theorem createICNS_framing_witness :
    Png2icons.readUInt32BE Png2icons.icnsSqBuf 4 = Png2icons.icnsSqBuf.length ∧
    ∃ cs : List (List Nat × List Nat),
      Png2icons.icnsSqBuf = [105, 99, 110, 115] ++
        Png2icons.writeUInt32BE Png2icons.icnsSqBuf.length ++
        Png2icons.concatAll (cs.map fun e => Png2icons.icnsChunkBytes e.1 e.2) ∧
      ∀ e ∈ cs, Png2icons.readUInt32BE (Png2icons.icnsChunkBytes e.1 e.2) 4
        = e.2.length + 8 :=
  createICNS_framing Png2icons.icnsSqExt [7] 2 256 Png2icons.icnsSqState
    { data := [0, 0, 0, 0], width := 1, height := 1 } Png2icons.icnsSqBuf
    Png2icons.icnsSqState rfl (by decide) (by decide) (by decide)
    (fun d w h c p hp => Option.noConfusion hp)
    (by constructor <;> decide) Png2icons.icnsSq_run

namespace Png2icons

/-- The external PNG encoder never returns an empty buffer. -/
def pngPos (ext : Ext) : Prop :=
  ∀ d w h c p, ext.upngEncode d w h c = some p → 0 < p.length

/-- Every cached PNG payload is nonempty. -/
def cachePos (σ : CState) : Prop :=
  ∀ e ∈ σ.scaledPNGImageCache, 0 < e.Data.length

/-- A successful `getCachedPNG` returns a nonempty payload and preserves
payload positivity of the cache. -/
theorem getCachedPNG_pos (ext : Ext) (rgba : List Nat) (w h n : Int)
    (σ σ1 : CState) (p : List Nat)
    (hpos : pngPos ext) (hσp : cachePos σ)
    (h1 : getCachedPNG ext rgba w h n σ = (some p, σ1)) :
    0 < p.length ∧ cachePos σ1 := by
  simp only [getCachedPNG] at h1
  split at h1
  · next e heq =>
      have hp : some e.Data = some p := congrArg Prod.fst h1
      have hσ1 : σ = σ1 := congrArg Prod.snd h1
      rw [Option.some.injEq] at hp
      rw [← hp, ← hσ1]
      exact ⟨hσp e (List.mem_of_find?_eq_some heq), hσp⟩
  · next heq =>
      split at h1
      · next result hres =>
          rw [Prod.mk.injEq, Option.some.injEq] at h1
          obtain ⟨hp, hσ1⟩ := h1
          have hres' := hpos _ _ _ _ _ hres
          subst hp
          refine ⟨hres', ?_⟩
          rw [← hσ1]
          intro e he
          rw [List.mem_append] at he
          cases he with
          | inl hh => exact hσp e hh
          | inr hh =>
            rw [List.mem_singleton] at hh
            subst hh
            exact hres'
      · next hres => exact Option.noConfusion (congrArg Prod.fst h1)

/-- `checkCache` preserves payload positivity (it only keeps or clears). -/
theorem checkCache_pos (input : List Nat) (σ : CState)
    (h : cachePos σ) : cachePos (checkCache input σ) := by
  simp only [checkCache]
  split
  · exact h
  · split
    · exact h
    · exact fun e he => absurd he (List.not_mem_nil e)

@[simp] theorem getICONDIRENTRY_length (s w h o : Nat) :
    (getICONDIRENTRY s w h o).length = 16 := rfl

@[simp] theorem getBITMAPINFOHEADER_length (image : Image) :
    (getBITMAPINFOHEADER image).length = 40 := rfl

/-- Reading back a 32-bit little-endian field written at the end. -/
theorem readUInt32LE_append_end (pre : List Nat) (v : Nat) (hv : v < 2 ^ 32) :
    readUInt32LE (pre ++ writeUInt32LE v) pre.length = v := by
  have := readUInt32LE_append pre v [] hv
  rwa [List.append_nil] at this

/-- The declared-size field of a directory entry. -/
theorem getICONDIRENTRY_size (s w h o : Nat) (hs : s < 2 ^ 32) :
    readUInt32LE (getICONDIRENTRY s w h o) 8 = s := by
  have hr := readUInt32LE_append
    ([(if 256 ≤ w then 0 else w) % 256, (if 256 ≤ h then 0 else h) % 256, 0, 0] ++
      writeUInt16LE 1 ++ writeUInt16LE 32) s (writeUInt32LE o) hs
  simp only [List.length_append, List.length_cons, List.length_nil, writeUInt16LE,
    Nat.reduceAdd] at hr
  simp only [getICONDIRENTRY, List.append_assoc] at hr ⊢
  exact hr

/-- The offset field of a directory entry. -/
theorem getICONDIRENTRY_offset (s w h o : Nat) (ho : o < 2 ^ 32) :
    readUInt32LE (getICONDIRENTRY s w h o) 12 = o := by
  have hr := readUInt32LE_append_end
    ([(if 256 ≤ w then 0 else w) % 256, (if 256 ≤ h then 0 else h) % 256, 0, 0] ++
      writeUInt16LE 1 ++ writeUInt16LE 32 ++ writeUInt32LE s) o ho
  simp only [List.length_append, List.length_cons, List.length_nil, writeUInt16LE,
    writeUInt32LE, Nat.reduceAdd] at hr
  simp only [getICONDIRENTRY, List.append_assoc] at hr ⊢
  exact hr

/-- The entry-count field of the assembled ICO, whatever follows the
6-byte `ICONDIR`. -/
theorem readUInt16LE_icondir (n : Nat) (rest : List Nat) (hn : n < 2 ^ 16) :
    readUInt16LE (getICONDIR n ++ rest) 4 = n := by
  simp only [getICONDIR, writeUInt16LE, readUInt16LE, List.cons_append, List.nil_append,
    List.getD_cons_succ, List.getD_cons_zero]
  omega

end Png2icons

namespace Png2icons

/-- A fold whose step preserves the length of the first component
preserves it globally. -/
theorem foldl_fst_length {α : Type} (f : (List Nat × List Nat) → α → (List Nat × List Nat))
    (l : List α) (st : List Nat × List Nat)
    (hf : ∀ st a, ((f st a).1.length = st.1.length)) :
    ((List.foldl f st l).1.length = st.1.length) := by
  induction l generalizing st with
  | nil => rfl
  | cons a t ih => rw [List.foldl_cons, ih (f st a) , hf st a]

/-- `getDIB` returns exactly the pixel bytes plus the padded mask bytes. -/
theorem getDIB_length (image : Image) :
    (getDIB image).length
      = image.data.length + getMaskSize image.width image.height := by
  simp only [getDIB]
  rw [List.length_append, fitLen_length]
  congr 1
  rw [foldl_fst_length]
  · exact List.length_replicate _ _
  · intro st r
    simp only []
    rw [foldl_fst_length]
    intro st2 colPix
    simp only [List.length_set]

/-- Bound on the padded 1-bit mask for a ≤ 1024 px bitmap. -/
theorem getMaskSize_le (w h : Nat) (hw : w ≤ 1024) (hh : h ≤ 1024) :
    getMaskSize w h ≤ 2 ^ 18 := by
  simp only [getMaskSize]
  have hrow : w + (if w % 32 ≠ 0 then 32 - w % 32 else 0) ≤ 1056 := by
    split <;> omega
  calc (w + (if w % 32 ≠ 0 then 32 - w % 32 else 0)) * h / 8
      ≤ 1056 * 1024 / 8 := Nat.div_le_div_right (Nat.mul_le_mul hrow hh)
  _ ≤ 2 ^ 18 := by norm_num

/-- Length of a concatenation is the sum of the lengths. -/
theorem concatAll_length (ls : List (List Nat)) :
    (concatAll ls).length = (ls.map List.length).sum := by
  induction ls with
  | nil => rfl
  | cons a t ih =>
    rw [concatAll_cons, List.length_append, ih, List.map_cons, List.sum_cons]

end Png2icons

namespace Png2icons

/-- One successful ICO iteration on a square bounded source appends one
16-byte directory entry carrying the payload length and the current
offset, and one payload of between 1 and `2 ^ 26` bytes. -/
theorem icoStep_framing (ext : Ext) (src : Image) (alg n : Int) (PNG fwe : Bool)
    (sz : Nat) (acc acc2 : IcoAcc) (σ σ2 : CState)
    (hsq : src.height = src.width) (hE : 1 ≤ src.width)
    (himg : src.data.length ≤ 2 ^ 24) (hsz : sz ≤ 1024)
    (henc : encOK ext) (hpos : pngPos ext)
    (hσ : cacheBounded σ) (hσp : cachePos σ)
    (h1 : icoStep ext src alg n PNG fwe sz acc σ = (some acc2, σ2)) :
    cacheBounded σ2 ∧ cachePos σ2 ∧
    ∃ (payload : List Nat) (w h : Nat),
      acc2.dir = acc.dir ++ [getICONDIRENTRY payload.length w h acc.offset] ∧
      concatAll acc2.imgs = concatAll acc.imgs ++ payload ∧
      acc2.total = acc.total + 16 + payload.length ∧
      acc2.offset = acc.offset + payload.length ∧
      0 < payload.length ∧ payload.length ≤ 2 ^ 26 := by
  simp only [icoStep] at h1
  rw [hsq, getStretchedRect_square src.width sz hE] at h1
  simp only [getRect_Width, getRect_Height, Int.toNat_natCast] at h1
  have hrect : (((getRect 0 0 (sz : Int) (sz : Int)).Width *
      (getRect 0 0 (sz : Int) (sz : Int)).Height * 4).toNat) ≤ 2 ^ 24 := by
    simp only [getRect_Width, getRect_Height]
    have hcast : ((sz : Int) * (sz : Int) * 4) = ((sz * sz * 4 : Nat) : Int) := by
      push_cast
      ring
    rw [hcast, Int.toNat_natCast]
    calc sz * sz * 4 ≤ 1024 * 1024 * 4 :=
        Nat.mul_le_mul_right 4 (Nat.mul_le_mul hsz hsz)
    _ ≤ 2 ^ 24 := by norm_num
  have hsid := getScaledImageData_bounded ext src (getRect 0 0 (sz : Int) (sz : Int))
    alg σ himg hrect hσ
  have hpc := getScaledImageData_pngCache ext src (getRect 0 0 (sz : Int) (sz : Int)) alg σ
  rcases hsd : getScaledImageData ext src (getRect 0 0 (sz : Int) (sz : Int)) alg σ
    with ⟨d, σa⟩
  rw [hsd] at h1 hsid hpc
  simp only [] at h1 hsid hpc
  obtain ⟨hd, hσa⟩ := hsid
  have hσap : cachePos σa := by
    intro e he
    rw [hpc] at he
    exact hσp e he
  by_cases hpng : icoUsesPNG PNG fwe ((sz : Nat) : Int)
  · rw [if_pos hpng] at h1
    rcases hp : getCachedPNG ext d (sz : Int) (sz : Int) (clampColors n) σa with ⟨o, σb⟩
    rw [hp] at h1
    cases o with
    | none =>
      simp only [] at h1
      exact Option.noConfusion (congrArg Prod.fst h1)
    | some enc =>
      simp only [] at h1
      rw [Prod.mk.injEq, Option.some.injEq] at h1
      obtain ⟨hacc, hσ2⟩ := h1
      have hb := getCachedPNG_bounded ext d (sz : Int) (sz : Int) (clampColors n)
        σa σb enc henc hσa hp
      have hb2 := getCachedPNG_pos ext d (sz : Int) (sz : Int) (clampColors n)
        σa σb enc hpos hσap hp
      refine ⟨hσ2 ▸ hb.2, hσ2 ▸ hb2.2, enc, sz, sz, ?_, ?_, ?_, ?_, hb2.1,
        le_trans hb.1 (by norm_num)⟩
      · rw [← hacc]
      · rw [← hacc]
        simp [concatAll_append, concatAll_cons, concatAll_nil]
      · rw [← hacc]
      · rw [← hacc]
  · rw [if_neg hpng] at h1
    rw [Prod.mk.injEq, Option.some.injEq] at h1
    obtain ⟨hacc, hσ2⟩ := h1
    have hplen : (getBITMAPINFOHEADER { data := d, width := sz, height := sz } ++
        getDIB { data := d, width := sz, height := sz }).length
        = d.length + getMaskSize sz sz + 40 := by
      rw [List.length_append, getBITMAPINFOHEADER_length, getDIB_length]
      simp only []
      omega
    have hmask := getMaskSize_le sz sz hsz hsz
    refine ⟨hσ2 ▸ hσa, hσ2 ▸ hσap,
      getBITMAPINFOHEADER { data := d, width := sz, height := sz } ++
        getDIB { data := d, width := sz, height := sz }, sz, sz, ?_, ?_, ?_, ?_, ?_, ?_⟩
    · rw [hplen, ← hacc]
    · rw [← hacc]
      simp [concatAll_append, concatAll_cons, concatAll_nil]
    · rw [hplen, ← hacc]
      simp only []
      rw [getDIB_length]
      simp only [getBITMAPINFOHEADER_length]
      omega
    · rw [hplen, ← hacc]
      simp only []
      rw [getDIB_length]
      simp only [getBITMAPINFOHEADER_length]
      omega
    · rw [hplen]
      omega
    · rw [hplen]
      omega

end Png2icons

namespace Png2icons

/-- Loop invariant of `icoLoop`: a successful run appends one 16-byte
directory entry and one payload per size; each entry stores its payload's
length and the cumulative offset. -/
theorem icoLoop_framing (ext : Ext) (src : Image) (alg n : Int) (PNG fwe : Bool)
    (hsq : src.height = src.width) (hE : 1 ≤ src.width)
    (himg : src.data.length ≤ 2 ^ 24)
    (henc : encOK ext) (hpos : pngPos ext) :
    ∀ (sizes : List Nat), (∀ s ∈ sizes, s ≤ 1024) →
    ∀ (acc accF : IcoAcc) (σ σ2 : CState),
      cacheBounded σ → cachePos σ →
      icoLoop ext src alg n PNG fwe sizes acc σ = (some accF, σ2) →
      ∃ ps : List (List Nat × List Nat),
        ps.length = sizes.length ∧
        accF.dir = acc.dir ++ ps.map (fun e => e.1) ∧
        concatAll accF.imgs = concatAll acc.imgs ++ concatAll (ps.map (fun e => e.2)) ∧
        accF.total = acc.total + 16 * ps.length + ((ps.map (fun e => e.2.length)).sum) ∧
        ∀ k (hk : k < ps.length),
          (∃ w h, (ps.get ⟨k, hk⟩).1 = getICONDIRENTRY (ps.get ⟨k, hk⟩).2.length w h
            (acc.offset + (((ps.take k).map (fun e => e.2.length)).sum))) ∧
          0 < (ps.get ⟨k, hk⟩).2.length ∧ (ps.get ⟨k, hk⟩).2.length ≤ 2 ^ 26 := by
  intro sizes
  induction sizes with
  | nil =>
    intro hsz acc accF σ σ2 hσ hσp h1
    simp only [icoLoop] at h1
    rw [Prod.mk.injEq, Option.some.injEq] at h1
    refine ⟨[], rfl, ?_, ?_, ?_, ?_⟩
    · simp [← h1.1]
    · simp [concatAll_nil, ← h1.1]
    · simp [← h1.1]
    · intro k hk
      exact absurd hk (by simp)
  | cons sz rest ih =>
    intro hsz acc accF σ σ2 hσ hσp h1
    simp only [icoLoop] at h1
    rcases hstep : icoStep ext src alg n PNG fwe sz acc σ with ⟨o, σa⟩
    rw [hstep] at h1
    cases o with
    | none =>
      simp only [] at h1
      rw [Prod.mk.injEq] at h1
      exact Option.noConfusion h1.1
    | some accA =>
      simp only [] at h1
      obtain ⟨hσa, hσap, payload, w, hh, hdir, himgs, htot, hoff, hpos0, hple⟩ :=
        icoStep_framing ext src alg n PNG fwe sz acc accA σ σa hsq hE himg
          (hsz sz (by simp)) henc hpos hσ hσp hstep
      obtain ⟨ps, hlen, hdir2, himgs2, htot2, hk2⟩ := ih (fun s hs => hsz s (by simp [hs]))
        accA accF σa σ2 hσa hσap h1
      refine ⟨(getICONDIRENTRY payload.length w hh acc.offset, payload) :: ps,
        by simp [hlen], ?_, ?_, ?_, ?_⟩
      · rw [hdir2, hdir]
        simp [List.append_assoc]
      · rw [himgs2, himgs]
        simp [List.map_cons, concatAll_cons, List.append_assoc]
      · rw [htot2, htot]
        simp only [List.map_cons, List.sum_cons, List.length_cons]
        omega
      · intro k hk
        cases k with
        | zero =>
          refine ⟨⟨w, hh, ?_⟩, hpos0, hple⟩
          simp
        | succ k =>
          have hk' : k < ps.length := by simpa using hk
          obtain ⟨⟨w2, h2, hent⟩, hp0, hp26⟩ := hk2 k hk'
          refine ⟨⟨w2, h2, ?_⟩, by simpa using hp0, by simpa using hp26⟩
          simp only [List.get_cons_succ, List.take_succ_cons, List.map_cons, List.sum_cons]
          rw [hent, hoff]
          congr 1
          omega

end Png2icons

namespace Png2icons

theorem sum_map_length_const (m : List (List Nat)) (B : Nat)
    (h : ∀ x ∈ m, x.length = B) : (m.map List.length).sum = B * m.length := by
  induction m with
  | nil => simp
  | cons a t ih =>
    simp only [List.map_cons, List.sum_cons, List.length_cons, h a (by simp),
      ih (fun x hx => h x (by simp [hx]))]
    ring

theorem sum_le_length_mul (m : List Nat) (B : Nat) (h : ∀ x ∈ m, x ≤ B) :
    m.sum ≤ m.length * B := by
  induction m with
  | nil => simp
  | cons a t ih =>
    simp only [List.sum_cons, List.length_cons]
    have ha := h a (by simp)
    have ht := ih (fun x hx => h x (by simp [hx]))
    calc a + t.sum ≤ B + t.length * B := by omega
    _ = (t.length + 1) * B := by ring

theorem sum_pos_of_mem (m : List Nat) (h : ∀ x ∈ m, 0 < x) (hne : m ≠ []) :
    0 < m.sum := by
  cases m with
  | nil => exact absurd rfl hne
  | cons a t =>
    rw [List.sum_cons]
    have := h a (by simp)
    omega

theorem sum_take_lt_sum_take (l : List Nat) (hpos : ∀ x ∈ l, 0 < x) (j k : Nat)
    (hjk : j < k) (hk : k ≤ l.length) :
    (l.take j).sum < (l.take k).sum := by
  have h1 : l.take j = (l.take k).take j := by
    rw [List.take_take, min_eq_left (le_of_lt hjk)]
  rw [h1, ← List.sum_take_add_sum_drop (l.take k) j]
  have hdl : ((l.take k).drop j).length = min k l.length - j := by
    simp [List.length_drop, List.length_take]
  have hdrop : ((l.take k).drop j) ≠ [] := by
    intro hc
    rw [hc] at hdl
    simp at hdl
    omega
  have hpos2 : 0 < ((l.take k).drop j).sum :=
    sum_pos_of_mem _ (fun x hx => hpos x (List.mem_of_mem_take (List.mem_of_mem_drop hx)))
      hdrop
  omega

end Png2icons

namespace Png2icons

@[simp] theorem getICONDIR_length (n : Nat) : (getICONDIR n).length = 6 := rfl

end Png2icons

/-- **C8** — ICO framing: for every successful `createICO` result the
`ICONDIR` count field equals the number of configured sizes (9), the
buffer is the 6-byte header, nine 16-byte directory entries, then the
payloads; each entry's declared data size equals its payload's actual byte
length, each entry's offset equals the cumulative length of all preceding
bytes (header, all entries, preceding payloads), and the offsets are
strictly increasing. -/
theorem createICO_framing :
    ∀ (ext : Png2icons.Ext) (input : List Nat) (alg n : Int) (PNG fwe : Bool)
      (σ : Png2icons.CState) (im : Png2icons.Image) (buf : List Nat)
      (σ2 : Png2icons.CState),
      ext.upngDecode input = some im →
      1 ≤ max im.height im.width →
      max im.height im.width ≤ 1024 →
      im.data.length ≤ 2 ^ 24 →
      Png2icons.encOK ext →
      Png2icons.pngPos ext →
      Png2icons.cacheBounded σ →
      Png2icons.cachePos σ →
      Png2icons.createICO ext input alg n PNG fwe σ = (some buf, σ2) →
      Png2icons.readUInt16LE buf 4 = 9 ∧
      ∃ ps : List (List Nat × List Nat),
        ps.length = 9 ∧
        buf = Png2icons.getICONDIR 9 ++
          Png2icons.concatAll (ps.map fun e => e.1) ++
          Png2icons.concatAll (ps.map fun e => e.2) ∧
        (∀ k (hk : k < ps.length),
          Png2icons.readUInt32LE ((ps.get ⟨k, hk⟩).1) 8 = (ps.get ⟨k, hk⟩).2.length ∧
          Png2icons.readUInt32LE ((ps.get ⟨k, hk⟩).1) 12
            = 6 + 9 * 16 + (((ps.take k).map fun e => e.2.length).sum)) ∧
        (∀ j k (hj : j < ps.length) (hk : k < ps.length), j < k →
          Png2icons.readUInt32LE ((ps.get ⟨j, hj⟩).1) 12
            < Png2icons.readUInt32LE ((ps.get ⟨k, hk⟩).1) 12) := by
  intro ext input alg n PNG fwe σ im buf σ2 hdec h1max h2max hdata henc hpos hσ hσp hrun
  have hpow : (2 : Nat) ^ 24 = 16777216 ∧ (2 : Nat) ^ 26 = 67108864 ∧
      (2 : Nat) ^ 32 = 4294967296 := by norm_num
  have hL9 : Png2icons.icoChunkSizes.length = 9 := rfl
  simp only [Png2icons.createICO] at hrun
  rw [hdec] at hrun
  simp only [] at hrun
  have hsq := Png2icons.getQuadraticImage_square im
  have hmaxle := max_le_iff.mp h2max
  have hdle := Png2icons.getQuadraticImage_data_le im hdata
    (le_trans hmaxle.2 (by norm_num)) (le_trans hmaxle.1 (by norm_num))
  rcases hL : Png2icons.icoLoop ext (Png2icons.getQuadraticImage im) alg n PNG fwe
      Png2icons.icoChunkSizes
      { dir := [Png2icons.getICONDIR Png2icons.icoChunkSizes.length], imgs := [],
        total := 6, offset := 6 + Png2icons.icoChunkSizes.length * 16 }
      (Png2icons.checkCache input σ) with ⟨o, σL⟩
  rw [hL] at hrun
  cases o with
  | none =>
    simp only [] at hrun
    rw [Prod.mk.injEq] at hrun
    exact Option.noConfusion hrun.1
  | some accF =>
    simp only [] at hrun
    rw [Prod.mk.injEq, Option.some.injEq] at hrun
    obtain ⟨hbuf, hσL⟩ := hrun
    obtain ⟨ps, hlen, hdirF, himgsF, htotF, hK⟩ := Png2icons.icoLoop_framing ext
      (Png2icons.getQuadraticImage im) alg n PNG fwe
      (hsq.2.trans hsq.1.symm) (by rw [hsq.1]; exact h1max) hdle henc hpos
      Png2icons.icoChunkSizes (by decide)
      { dir := [Png2icons.getICONDIR Png2icons.icoChunkSizes.length], imgs := [],
        total := 6, offset := 6 + Png2icons.icoChunkSizes.length * 16 }
      accF (Png2icons.checkCache input σ) σL
      (Png2icons.checkCache_bounded input σ hσ) (Png2icons.checkCache_pos input σ hσp) hL
    have h9 : ps.length = 9 := hlen
    have hent16 : ∀ x ∈ ps.map (fun e => e.1), x.length = 16 := by
      intro x hx
      rw [List.mem_map] at hx
      obtain ⟨e, he, hxe⟩ := hx
      obtain ⟨⟨k, hk⟩, hget⟩ := List.mem_iff_get.mp he
      obtain ⟨⟨w, hh, hent⟩, -, -⟩ := hK k hk
      rw [← hxe, ← hget, hent, Png2icons.getICONDIRENTRY_length]
    have hple : ∀ x ∈ ps.map (fun e => e.2.length), x ≤ 2 ^ 26 := by
      intro x hx
      rw [List.mem_map] at hx
      obtain ⟨e, he, hxe⟩ := hx
      obtain ⟨⟨k, hk⟩, hget⟩ := List.mem_iff_get.mp he
      obtain ⟨-, -, hb⟩ := hK k hk
      rw [← hxe, ← hget]
      exact hb
    have hppos : ∀ x ∈ ps.map (fun e => e.2.length), 0 < x := by
      intro x hx
      rw [List.mem_map] at hx
      obtain ⟨e, he, hxe⟩ := hx
      obtain ⟨⟨k, hk⟩, hget⟩ := List.mem_iff_get.mp he
      obtain ⟨-, hb, -⟩ := hK k hk
      rw [← hxe, ← hget]
      exact hb
    have hpsum : ((ps.map (fun e => e.2)).map List.length).sum
        = (ps.map (fun e => e.2.length)).sum := by
      rw [List.map_map]
      rfl
    have hdirC : Png2icons.concatAll accF.dir = Png2icons.getICONDIR 9 ++
        Png2icons.concatAll (ps.map (fun e => e.1)) := by
      rw [hdirF]
      simp [Png2icons.concatAll_append, Png2icons.concatAll_cons, Png2icons.concatAll_nil,
        hL9]
    have himgsC : Png2icons.concatAll accF.imgs
        = Png2icons.concatAll (ps.map (fun e => e.2)) := by
      rw [himgsF]
      simp [Png2icons.concatAll_nil]
    have htotF' : accF.total = 6 + 16 * 9 + (ps.map (fun e => e.2.length)).sum := by
      rw [htotF, h9]
    have hclen : (Png2icons.concatAll (accF.dir ++ accF.imgs)).length = accF.total := by
      rw [Png2icons.concatAll_append, List.length_append, hdirC, himgsC,
        List.length_append, Png2icons.concatAll_length, Png2icons.concatAll_length,
        Png2icons.sum_map_length_const _ 16 hent16, List.length_map, h9, hpsum,
        Png2icons.getICONDIR_length, htotF']
    have hbufeq : buf = Png2icons.getICONDIR 9 ++
        Png2icons.concatAll (ps.map fun e => e.1) ++
        Png2icons.concatAll (ps.map fun e => e.2) := by
      rw [← hbuf, Png2icons.fitLen_eq_self _ _ hclen, Png2icons.concatAll_append,
        hdirC, himgsC]
    have htake_le : ∀ (m : List Nat) (k : Nat), (m.take k).sum ≤ m.sum := by
      intro m k
      have := List.sum_take_add_sum_drop m k
      omega
    have hofflt : ∀ k, k ≤ ps.length →
        6 + 9 * 16 + (((ps.take k).map fun e => e.2.length).sum) < 2 ^ 32 := by
      intro k hk
      have hfull := Png2icons.sum_le_length_mul (ps.map fun e => e.2.length) (2 ^ 26) hple
      rw [List.length_map, h9] at hfull
      have htk : (((ps.take k).map fun e => e.2.length).sum)
          ≤ ((ps.map fun e => e.2.length).sum) := by
        rw [List.map_take]
        exact htake_le _ k
      omega
    have hfields : ∀ k (hk : k < ps.length),
        Png2icons.readUInt32LE ((ps.get ⟨k, hk⟩).1) 8 = (ps.get ⟨k, hk⟩).2.length ∧
        Png2icons.readUInt32LE ((ps.get ⟨k, hk⟩).1) 12
          = 6 + 9 * 16 + (((ps.take k).map fun e => e.2.length).sum) := by
      intro k hk
      obtain ⟨⟨w, hh, hent⟩, hp0, hp26⟩ := hK k hk
      constructor
      · rw [hent, Png2icons.getICONDIRENTRY_size _ _ _ _ (by omega)]
      · rw [hent, Png2icons.getICONDIRENTRY_offset]
        · simp only []
          rw [hL9]
        · simp only []
          rw [hL9]
          have := hofflt k (le_of_lt hk)
          omega
    refine ⟨?_, ps, h9, hbufeq, hfields, ?_⟩
    · rw [hbufeq, List.append_assoc]
      exact Png2icons.readUInt16LE_icondir 9 _ (by norm_num)
    · intro j k hj hk hjk
      rw [(hfields j hj).2, (hfields k hk).2]
      have hmt := Png2icons.sum_take_lt_sum_take (ps.map fun e => e.2.length) hppos j k
        hjk (by rw [List.length_map]; omega)
      rw [List.map_take, List.map_take]
      omega

namespace Png2icons

/-- `icoStep` specialized to a square source (kernel-computable). -/
def icoStepSq (ext : Ext) (srcImage : Image) (scalingAlgorithm numOfColors : Int)
    (PNG forWinExe : Bool) (icoChunkSize : Nat) (acc : IcoAcc) (σ : CState) :
    Option IcoAcc × CState :=
  let icoChunkRect := getRect 0 0 (icoChunkSize : Int) (icoChunkSize : Int)
  let sres := getScaledImageData ext srcImage icoChunkRect scalingAlgorithm σ
  let scaledRawImage : Image :=
    { data := sres.1, height := icoChunkRect.Height.toNat, width := icoChunkRect.Width.toNat }
  if icoUsesPNG PNG forWinExe icoChunkRect.Height then
    let pres := getCachedPNG ext scaledRawImage.data (scaledRawImage.width : Int)
      (scaledRawImage.height : Int) (clampColors numOfColors) sres.2
    match pres.1 with
    | none => (none, pres.2)
    | some encodedIcon =>
      (some { dir := acc.dir ++ [getICONDIRENTRY encodedIcon.length
                scaledRawImage.width scaledRawImage.height acc.offset],
              imgs := acc.imgs ++ [encodedIcon],
              total := acc.total + 16 + encodedIcon.length,
              offset := acc.offset + encodedIcon.length }, pres.2)
  else
    let bmpInfoHeader := getBITMAPINFOHEADER scaledRawImage
    let DIB := getDIB scaledRawImage
    (some { dir := acc.dir ++ [getICONDIRENTRY
              (scaledRawImage.data.length
                + getMaskSize scaledRawImage.width scaledRawImage.height + 40)
              scaledRawImage.width scaledRawImage.height acc.offset],
            imgs := acc.imgs ++ [bmpInfoHeader, DIB],
            total := acc.total + 16 + bmpInfoHeader.length + DIB.length,
            offset := acc.offset + bmpInfoHeader.length + DIB.length }, sres.2)

theorem icoStep_eq_sq (ext : Ext) (src : Image) (alg n : Int) (PNG fwe : Bool)
    (sz : Nat) (acc : IcoAcc) (σ : CState)
    (hsq : src.height = src.width) (hE : 1 ≤ src.width) :
    icoStep ext src alg n PNG fwe sz acc σ = icoStepSq ext src alg n PNG fwe sz acc σ := by
  simp only [icoStep, icoStepSq]
  rw [hsq, getStretchedRect_square src.width sz hE]

/-- The ICO chunk loop over the square-specialized step. -/
def icoLoopSq (ext : Ext) (srcImage : Image) (scalingAlgorithm numOfColors : Int)
    (PNG forWinExe : Bool) :
    List Nat → IcoAcc → CState → Option IcoAcc × CState
  | [], acc, σ => (some acc, σ)
  | sz :: rest, acc, σ =>
    let r := icoStepSq ext srcImage scalingAlgorithm numOfColors PNG forWinExe sz acc σ
    match r.1 with
    | none => (none, r.2)
    | some acc2 => icoLoopSq ext srcImage scalingAlgorithm numOfColors PNG forWinExe rest acc2 r.2

theorem icoLoop_eq_sq (ext : Ext) (src : Image) (alg n : Int) (PNG fwe : Bool)
    (hsq : src.height = src.width) (hE : 1 ≤ src.width) :
    ∀ (sizes : List Nat) (acc : IcoAcc) (σ : CState),
      icoLoop ext src alg n PNG fwe sizes acc σ
        = icoLoopSq ext src alg n PNG fwe sizes acc σ := by
  intro sizes
  induction sizes with
  | nil => intro acc σ; rfl
  | cons sz rest ih =>
    intro acc σ
    simp only [icoLoop, icoLoopSq, icoStep_eq_sq ext src alg n PNG fwe sz acc σ hsq hE]
    rcases hr : icoStepSq ext src alg n PNG fwe sz acc σ with ⟨o, σa⟩
    cases o with
    | none => rfl
    | some acc2 => exact ih acc2 σa

/-- Cache state for the C8 witness: every scaled lookup and every PNG
lookup of the nine ICO sizes hits. -/
def icoSqState : CState :=
  { scaledImageCache :=
      [ { data := [], width := 256, height := 256 },
        { data := [], width := 128, height := 128 },
        { data := [], width := 96, height := 96 },
        { data := [], width := 72, height := 72 },
        { data := [], width := 64, height := 64 },
        { data := [], width := 48, height := 48 },
        { data := [], width := 32, height := 32 },
        { data := [], width := 24, height := 24 },
        { data := [], width := 16, height := 16 } ],
    scaledPNGImageCache :=
      [ { Data := [0], Width := 256, Height := 256 },
        { Data := [0], Width := 128, Height := 128 },
        { Data := [0], Width := 96, Height := 96 },
        { Data := [0], Width := 72, Height := 72 },
        { Data := [0], Width := 64, Height := 64 },
        { Data := [0], Width := 48, Height := 48 },
        { Data := [0], Width := 32, Height := 32 },
        { Data := [0], Width := 24, Height := 24 },
        { Data := [0], Width := 16, Height := 16 } ],
    currentImage := some [7] }

/-- The buffer the C8 witness run produces. -/
def icoSqBuf : List Nat :=
  match (icoLoopSq icnsSqExt { data := [0, 0, 0, 0], width := 1, height := 1 } 2
      (256 : Int) true false icoChunkSizes
      { dir := [getICONDIR icoChunkSizes.length], imgs := [],
        total := 6, offset := 6 + icoChunkSizes.length * 16 } icoSqState).1 with
  | some accF => fitLen (concatAll (accF.dir ++ accF.imgs)) accF.total
  | none => []

set_option maxRecDepth 100000 in
/-- Concrete evaluation of the C8 witness run. -/
theorem icoSq_run :
    createICO icnsSqExt [7] 2 256 true false icoSqState = (some icoSqBuf, icoSqState) := by
  have hdec : icnsSqExt.upngDecode [7]
      = some { data := [0, 0, 0, 0], width := 1, height := 1 } := rfl
  simp only [createICO, hdec]
  rw [icoLoop_eq_sq icnsSqExt
    (getQuadraticImage { data := [0, 0, 0, 0], width := 1, height := 1 }) 2 256 true false
    (by decide) (by decide) icoChunkSizes _ (checkCache [7] icoSqState)]
  decide

end Png2icons

theorem createICO_framing_witness :
    Png2icons.readUInt16LE Png2icons.icoSqBuf 4 = 9 ∧
    ∃ ps : List (List Nat × List Nat),
      ps.length = 9 ∧
      Png2icons.icoSqBuf = Png2icons.getICONDIR 9 ++
        Png2icons.concatAll (ps.map fun e => e.1) ++
        Png2icons.concatAll (ps.map fun e => e.2) ∧
      (∀ k (hk : k < ps.length),
        Png2icons.readUInt32LE ((ps.get ⟨k, hk⟩).1) 8 = (ps.get ⟨k, hk⟩).2.length ∧
        Png2icons.readUInt32LE ((ps.get ⟨k, hk⟩).1) 12
          = 6 + 9 * 16 + (((ps.take k).map fun e => e.2.length).sum)) ∧
      (∀ j k (hj : j < ps.length) (hk : k < ps.length), j < k →
        Png2icons.readUInt32LE ((ps.get ⟨j, hj⟩).1) 12
          < Png2icons.readUInt32LE ((ps.get ⟨k, hk⟩).1) 12) :=
  createICO_framing Png2icons.icnsSqExt [7] 2 256 true false Png2icons.icoSqState
    { data := [0, 0, 0, 0], width := 1, height := 1 } Png2icons.icoSqBuf
    Png2icons.icoSqState rfl (by decide) (by decide) (by decide)
    (fun d w h c p hp => Option.noConfusion hp)
    (fun d w h c p hp => Option.noConfusion hp)
    (by constructor <;> decide)
    (by intro e he; fin_cases he <;> decide)
    Png2icons.icoSq_run
